import Mathlib

/-!
Verification development for the WIPO PatentScope crawler repository
(`wipo_crawler.py`, `wipo_crawler_v2-v2.py`, `wipo_crawler_v2-v3.py`).

Shallow embedding conventions:
- Python `str` values are modelled as `List Char`; `str.strip()` is `pyStrip`,
  `str.lower()` is `pyLower` (ASCII case folding, which covers every string the
  code compares against), `str.startswith` is `List.isPrefixOf`.
- Python float arithmetic is modelled exactly: `WIPOStats.success_rate` with
  exact rationals (`ℚ`), and the progress computation `5 + int((idx/total)*90)`
  with `roundq`, an exact model of binary64 round-to-nearest-even rounding
  over ℚ applied to each intermediate result (faithful throughout the normal
  range of the format, which covers every reachable `idx/total`; e.g. the
  model yields 67, not 68, at `idx = 35, total = 50`, matching the program).
- The external world (HTTP responses, rendered pages, BeautifulSoup structural
  lookups, the Groq service) is modelled as explicit environment records
  (`ParseEnv`, `SearchEnv`, listing elements); the control flow that consumes
  those responses is translated from the source line by line.
- Python exceptions are modelled as explicit outcome values: the code's
  `WIPOExtractionError` versus any other exception is the `ExtractOutcome`
  distinction, and a raising call of the caller-supplied progress callback is
  a boolean-valued environment function.
-/

/-- Python `\s` / whitespace set used by `str.strip()` and the `[/\s-]`
character class, restricted to the ASCII whitespace characters. -/
def isPySpace (c : Char) : Bool :=
  c = ' ' || c = '\t' || c = '\n' || c = '\r' || c = '\x0b' || c = '\x0c'

/-- Python `str.strip()`: drop whitespace from both ends. -/
def pyStrip (l : List Char) : List Char :=
  ((l.dropWhile isPySpace).reverse.dropWhile isPySpace).reverse

/-- Python `str.lower()` (ASCII). -/
def pyLower (l : List Char) : List Char :=
  l.map Char.toLower

/-- Python `int(...)` on a nonempty digit string. -/
def digitsVal (l : List Char) : Nat :=
  l.foldl (fun acc c => acc * 10 + (c.toNat - '0'.toNat)) 0

/-- Python `list(dict.fromkeys(xs))`: deduplicate keeping the first
occurrence of each element, preserving order. -/
def firstDedupAux {α : Type} [DecidableEq α] : List α → List α → List α
  | [], _ => []
  | a :: l, seen => if a ∈ seen then firstDedupAux l seen else a :: firstDedupAux l (a :: seen)

/-- `list(dict.fromkeys(xs))`, entry point. -/
def firstDedup {α : Type} [DecidableEq α] (l : List α) : List α :=
  firstDedupAux l []

/-- Modelled from the spec: "deduplicates preserving order, order = first-seen
order" — keep each element's first occurrence in place and erase all its later
duplicates. Proving a lister equal to this function establishes the claim's
first-occurrence order (a last-occurrence deduplication differs from it
already on `[a, b, a]`). -/
def specFirstOccur {α : Type} [DecidableEq α] : List α → List α
  | [] => []
  | a :: l => a :: specFirstOccur (l.filter (fun x => decide (x ≠ a)))
termination_by l => l.length
decreasing_by
  simp only [List.length_cons]
  exact Nat.lt_succ_of_le (List.length_filter_le _ _)

/-! ## Validator (`looks_wrong`, `wipo_crawler_v2-v2.py` lines 51-100) -/

/-- The fixed UI-noise vocabulary (`invalid_patterns` in `looks_wrong`). -/
def invalid_patterns : List (List Char) :=
  ["close".toList, "reset".toList, "click".toList, "button".toList, "submit".toList,
   "search".toList, "menu".toList, "nav".toList, "header".toList, "footer".toList,
   "green inventory".toList, "loading".toList, "please wait".toList]

/-- One window of the regex `[A-H]\d{2}[A-Z]` (`re.search` scans windows). -/
def ipcWindow : List Char → Bool
  | a :: b :: c :: d :: _ =>
      decide ('A' ≤ a) && decide (a ≤ 'H') && b.isDigit && c.isDigit &&
      decide ('A' ≤ d) && decide (d ≤ 'Z')
  | _ => false

/-- `re.search(r'[A-H]\d{2}[A-Z]', value)` is truthy. -/
def hasIpcWindow (l : List Char) : Bool :=
  l.tails.any ipcWindow

/-- `value.lower().startswith((p1, ..., pn))`. -/
def startsWithAnyLower (v : List Char) (pats : List (List Char)) : Bool :=
  pats.any (fun p => List.isPrefixOf p (pyLower v))

/-- `looks_wrong(value, field_type)` from `wipo_crawler_v2-v2.py`:
returns `true` when the extracted value looks wrong/invalid. -/
def looks_wrong (value : List Char) (field_type : String) : Bool :=
  if pyStrip value = [] then true
  else
    let v := pyStrip value
    if invalid_patterns.contains (pyLower v) then true
    else if field_type = "title" then
      decide (v.length < 10) ||
        startsWithAnyLower v ["click".toList, "close".toList, "open".toList, "select".toList]
    else if field_type = "ipc" then
      !(hasIpcWindow v)
    else if field_type = "publication_number" then
      !(List.isPrefixOf ['W', 'O'] v)
    else if field_type = "applicants" then
      decide (v.length < 3)
    else
      false

/-! ## Statistics (`WIPOStats`, `wipo_crawler_v2-v2.py` lines 36-48) -/

/-- `WIPOStats` dataclass: per-tier success counters plus failures. -/
structure WIPOStats where
  static_success : Nat
  direct_success : Nat
  interactive_success : Nat
  failures : Nat
deriving DecidableEq

/-- `WIPOStats.success_rate`: Python float arithmetic modelled exactly in ℚ. -/
def success_rate (s : WIPOStats) : ℚ :=
  let total := s.static_success + s.direct_success + s.interactive_success + s.failures
  if total = 0 then 0
  else ((total : ℚ) - (s.failures : ℚ)) / (total : ℚ) * 100

/-- The claim's "attempts": the sum of the three per-tier success counters
plus the failures counter (the code's local `total`). -/
def attempts (s : WIPOStats) : Nat :=
  s.static_success + s.direct_success + s.interactive_success + s.failures

/-! ## Semantic fallback (`groq_extract_field`, lines 103-145) -/

/-- Environment for one fetched/rendered page: the structural lookups that
BeautifulSoup performs over the parsed document (`_extract_field_with_label`,
`_extract_list_field`, `_extract_abstract` are DocumentQuery primitives over
the opaque tree, so they are oracle inputs), the raw page text, and what the
Groq service would answer for a given (truncated html, field name) prompt
(`Option.none` models a service failure / raised exception). -/
structure ParseEnv where
  fieldWithLabel : List String → List String → List Char
  listField : List String → List (List Char)
  abstractText : List Char
  html : List Char
  groq : List Char → String → Option (List Char)

/-- `groq_extract_field(html, field_name, groq_api_key)`: returns `None` when
no API key is configured; otherwise truncates the html to its first 4000
characters, asks the service, and strips the answer; any service failure
degrades to `None`. -/
def groq_extract_field (pe : ParseEnv) (field_name : String)
    (groq_api_key : Option String) : Option (List Char) :=
  match groq_api_key with
  | Option.none => Option.none
  | Option.some _ => (pe.groq (pe.html.take 4000) field_name).map pyStrip

/-! ## Publication-number regex fallback (`re.search(r'WO[/\s]?\d{4}[/\s]?\d{6}', html)`) -/

/-- Separator class `[/\s]` of the WO-number pattern. -/
def isWoSep (c : Char) : Bool :=
  c = '/' || isPySpace c

/-- Take exactly `n` digits from the front, returning them and the rest. -/
def takeDigits : Nat → List Char → Option (List Char × List Char)
  | 0, l => Option.some ([], l)
  | _ + 1, [] => Option.none
  | n + 1, c :: l =>
      if c.isDigit then (takeDigits n l).map (fun p => (c :: p.1, p.2))
      else Option.none

/-- Match `WO[/\s]?\d{4}[/\s]?\d{6}` at the head of the list, returning the
matched text. The optional separator is greedy; since a separator is never a
digit the greedy choice is the only viable one. -/
def woMatchAt : List Char → Option (List Char)
  | 'W' :: 'O' :: rest =>
      let afterSep1 := match rest with
        | c :: r => if isWoSep c then Option.some ([c], r) else Option.some ([], rest)
        | [] => Option.some ([], rest)
      match afterSep1 with
      | Option.none => Option.none
      | Option.some (s1, r1) =>
        match takeDigits 4 r1 with
        | Option.none => Option.none
        | Option.some (d4, r2) =>
          let afterSep2 := match r2 with
            | c :: r => if isWoSep c then Option.some ([c], r) else Option.some ([], r2)
            | [] => Option.some ([], r2)
          match afterSep2 with
          | Option.none => Option.none
          | Option.some (s2, r3) =>
            match takeDigits 6 r3 with
            | Option.none => Option.none
            | Option.some (d6, _) =>
              Option.some ('W' :: 'O' :: (s1 ++ d4 ++ s2 ++ d6))
  | _ => Option.none

/-- `re.search` of the WO pattern: leftmost match over the whole text. -/
def searchWoPattern : List Char → Option (List Char)
  | [] => Option.none
  | l@(_ :: t) =>
      match woMatchAt l with
      | Option.some m => Option.some m
      | Option.none => searchWoPattern t

/-! ## Robust bibliographic parsing (`_parse_biblio_robust`, lines 428-504) -/

/-- The structured bibliographic record assembled by `_parse_biblio_robust`. -/
structure Biblio where
  title : List Char
  publication_number : List Char
  applicants : List (List Char)
  inventors : List (List Char)
  ipc_codes : List Char
  cpc_codes : List Char
  filing_date : List Char
  publication_date : List Char
  abstractField : List Char
deriving DecidableEq

/-- The source's call `self._extract_field_with_label(soup, ['Title', 'TITLE'],
['strong', 'label', 'dt'])` for the title. -/
def structTitle (pe : ParseEnv) : List Char :=
  pe.fieldWithLabel ["Title", "TITLE"] ["strong", "label", "dt"]

/-- Structural candidate for the publication number. -/
def structPubNum (pe : ParseEnv) : List Char :=
  pe.fieldWithLabel ["Publication Number", "Publication No"] ["strong", "label", "dt"]

/-- Structural candidate for the applicants list (`_extract_list_field`). -/
def structApplicants (pe : ParseEnv) : List (List Char) :=
  pe.listField ["Applicants", "APPLICANTS", "Applicant"]

/-- Structural candidate for the inventors list. -/
def structInventors (pe : ParseEnv) : List (List Char) :=
  pe.listField ["Inventors", "INVENTORS", "Inventor"]

/-- Structural candidate for the IPC codes. -/
def structIpc (pe : ParseEnv) : List Char :=
  pe.fieldWithLabel ["IPC", "Int. Cl.", "International Classification"] ["strong", "label", "dt"]

/-- Structural candidate for the CPC codes. -/
def structCpc (pe : ParseEnv) : List Char :=
  pe.fieldWithLabel ["CPC"] ["strong", "label", "dt"]

/-- Escalation condition for the applicants list:
`not applicants or (len(applicants) == 1 and looks_wrong(applicants[0], 'applicants'))`. -/
def applicantsEscalate : List (List Char) → Bool
  | [] => true
  | [a] => looks_wrong a "applicants"
  | _ => false

/-- Python `','.split` on a char list followed by per-item `strip()`. -/
def splitCommaStrip (g : List Char) : List (List Char) :=
  (g.splitOn ',').map pyStrip

/-- `_parse_biblio_robust(soup, html)`: structural extraction of every field,
with validator-gated Groq fallback for title and IPC, an unvalidated Groq
fallback for applicants, and a regex fallback for the publication number. -/
def parse_biblio_robust (pe : ParseEnv) (groq_api_key : Option String) : Biblio :=
  -- TITLE
  let title0 := structTitle pe
  let title :=
    if looks_wrong title0 "title" then
      match groq_extract_field pe "patent title" groq_api_key with
      | Option.some g => if g ≠ [] && !(looks_wrong g "title") then g else title0
      | Option.none => title0
    else title0
  -- PUBLICATION NUMBER
  let pub0 := structPubNum pe
  let pub_num :=
    if looks_wrong pub0 "publication_number" then
      match searchWoPattern pe.html with
      | Option.some m => m.filter (fun c => !(c = '/' || c = ' '))
      | Option.none => pub0
    else pub0
  -- APPLICANTS
  let apps0 := structApplicants pe
  let apps :=
    if applicantsEscalate apps0 then
      match groq_extract_field pe "applicants (comma separated)" groq_api_key with
      | Option.some g => if g ≠ [] then splitCommaStrip g else apps0
      | Option.none => apps0
    else apps0
  -- INVENTORS
  let invs := structInventors pe
  -- IPC CODES
  let ipc0 := structIpc pe
  let ipc :=
    if looks_wrong ipc0 "ipc" then
      match groq_extract_field pe "IPC classification codes" groq_api_key with
      | Option.some g => if g ≠ [] && !(looks_wrong g "ipc") then g else ipc0
      | Option.none => ipc0
    else ipc0
  -- CPC CODES (no validation)
  let cpc := structCpc pe
  -- DATES
  let filing_date := pe.fieldWithLabel ["International Filing Date", "Filing Date"]
    ["strong", "label", "dt"]
  let pub_date := pe.fieldWithLabel ["Publication Date"] ["strong", "label", "dt"]
  -- ABSTRACT
  let ab := pe.abstractText
  { title := title
    publication_number := pub_num
    applicants := apps.take 10
    inventors := invs.take 10
    ipc_codes := ipc
    cpc_codes := cpc
    filing_date := filing_date
    publication_date := pub_date
    abstractField := if ab ≠ [] then ab.take 1000 else [] }

/-! ## Tiered extraction (`_extract_static_httpx`, `_extract_direct_playwright`,
`_extract_patent_tiered`, lines 350-426) -/

/-- Result of one tier's fetch/render for one identifier, as seen from the
extraction code: `transportError` models an exception that is NOT a
`WIPOExtractionError` (e.g. an httpx network error or a Playwright `goto`
timeout), `extractionError` models the paths that raise `WIPOExtractionError`
before parsing (HTTP status ≠ 200 for tier 1; the patent-detail container
never appearing for tier 2), and `page` is a successfully obtained document. -/
inductive FetchResult where
  | transportError
  | extractionError
  | page (pe : ParseEnv)

/-- The crawler configuration plus the external world: what each tier's fetch
returns for each identifier. -/
structure SearchEnv where
  tier1 : List Char → FetchResult
  tier2 : List Char → FetchResult
  use_playwright : Bool
  groq_api_key : Option String

/-- One extracted patent dictionary. -/
structure Patent where
  wo_number : List Char
  source : String
  extraction_method : String
  biblio_data : Biblio
deriving DecidableEq

/-- Outcome of an extraction attempt: success, a raised `WIPOExtractionError`,
or any other raised exception. -/
inductive ExtractOutcome where
  | ok (p : Patent)
  | wipoErr
  | otherErr
deriving DecidableEq

/-- `true` exactly on `ExtractOutcome.ok`. -/
def ExtractOutcome.isOk : ExtractOutcome → Bool
  | ExtractOutcome.ok _ => true
  | _ => false

/-- Tier 1, `_extract_static_httpx`: GET the biblio page, parse robustly, and
raise `WIPOExtractionError` unless the title is present and passes the
Validator. -/
def extract_static_httpx (env : SearchEnv) (wo : List Char) : ExtractOutcome :=
  match env.tier1 wo with
  | FetchResult.transportError => ExtractOutcome.otherErr
  | FetchResult.extractionError => ExtractOutcome.wipoErr
  | FetchResult.page pe =>
      let biblio := parse_biblio_robust pe env.groq_api_key
      if biblio.title = [] || looks_wrong biblio.title "title" then ExtractOutcome.wipoErr
      else ExtractOutcome.ok
        { wo_number := wo, source := "WIPO", extraction_method := "static_httpx",
          biblio_data := biblio }

/-- Tier 2, `_extract_direct_playwright`: direct URL navigation, wait for the
detail container, parse robustly, validate the title the same way. -/
def extract_direct_playwright (env : SearchEnv) (wo : List Char) : ExtractOutcome :=
  match env.tier2 wo with
  | FetchResult.transportError => ExtractOutcome.otherErr
  | FetchResult.extractionError => ExtractOutcome.wipoErr
  | FetchResult.page pe =>
      let biblio := parse_biblio_robust pe env.groq_api_key
      if biblio.title = [] || looks_wrong biblio.title "title" then ExtractOutcome.wipoErr
      else ExtractOutcome.ok
        { wo_number := wo, source := "WIPO", extraction_method := "direct_playwright",
          biblio_data := biblio }

/-- `_extract_patent_tiered`: try tier 1; on `WIPOExtractionError` (and only
then) escalate to tier 2 when Playwright is enabled; a success increments the
matching success counter; exhaustion raises `WIPOExtractionError`. The third
component records, in invocation order, which tiers were attempted. -/
def extract_patent_tiered (env : SearchEnv) (stats : WIPOStats) (wo : List Char) :
    ExtractOutcome × WIPOStats × List Nat :=
  match extract_static_httpx env wo with
  | ExtractOutcome.ok p =>
      (ExtractOutcome.ok p, { stats with static_success := stats.static_success + 1 }, [1])
  | ExtractOutcome.otherErr => (ExtractOutcome.otherErr, stats, [1])
  | ExtractOutcome.wipoErr =>
      if env.use_playwright then
        match extract_direct_playwright env wo with
        | ExtractOutcome.ok p =>
            (ExtractOutcome.ok p,
             { stats with direct_success := stats.direct_success + 1 }, [1, 2])
        | ExtractOutcome.otherErr => (ExtractOutcome.otherErr, stats, [1, 2])
        | ExtractOutcome.wipoErr => (ExtractOutcome.wipoErr, stats, [1, 2])
      else (ExtractOutcome.wipoErr, stats, [1])

/-- Whether tier `t`'s attempt for `wo` would succeed. -/
def tierSucceeds (env : SearchEnv) (wo : List Char) (t : Nat) : Bool :=
  if t = 1 then (extract_static_httpx env wo).isOk
  else if t = 2 then (extract_direct_playwright env wo).isOk
  else false

/-- The patent `_extract_patent_tiered` would return for `wo`, if any
(the outcome is independent of the statistics threaded through). -/
def extractResult (env : SearchEnv) (wo : List Char) : Option Patent :=
  match (extract_patent_tiered env ⟨0, 0, 0, 0⟩ wo).1 with
  | ExtractOutcome.ok p => Option.some p
  | _ => Option.none

/-- All tiers fail for `wo` (either by raised `WIPOExtractionError` throughout
or by a non-WIPO transport exception cutting the escalation short). -/
def extractFails (env : SearchEnv) (wo : List Char) : Bool :=
  (extractResult env wo).isNone

/-! ## Candidate listing (`_get_wo_list_httpx`, lines 310-348, and
`search_wipo` of `wipo_crawler_v2-v3.py`, lines 26-44) -/

/-- One element produced by the result-listing selectors: its text content
(`elem.get_text()`) and its optional `href` attribute. -/
structure WoElem where
  text : List Char
  href : Option (List Char)
deriving DecidableEq

/-- Match `docId=(WO\d+)` at the head, returning capture group 1. -/
def docIdAt : List Char → Option (List Char)
  | 'd' :: 'o' :: 'c' :: 'I' :: 'd' :: '=' :: 'W' :: 'O' :: rest =>
      let ds := rest.takeWhile Char.isDigit
      if ds = [] then Option.none else Option.some ('W' :: 'O' :: ds)
  | _ => Option.none

/-- `re.search(r'docId=(WO\d+)', s)`: leftmost match, greedy digits. -/
def docIdSearch : List Char → Option (List Char)
  | [] => Option.none
  | l@(_ :: t) =>
      match docIdAt l with
      | Option.some m => Option.some m
      | Option.none => docIdSearch t

/-- The raw identifier token taken from one listing element: the stripped text
content, falling back to the `docId` capture of the `href` when the text is
empty. -/
def elemToken (e : WoElem) : List Char :=
  let t := pyStrip e.text
  if t = [] then
    match e.href with
    | Option.some h => (docIdSearch h).getD []
    | Option.none => []
  else t

/-- Normalization `re.sub(r'[/\s-]', '', wo_text)`. -/
def normalizeWo (t : List Char) : List Char :=
  t.filter (fun c => !(c = '/' || isPySpace c || c = '-'))

/-- `_get_wo_list_httpx` after the fetch: per element, take the token,
normalize it, keep it when nonempty and carrying the `WO` prefix, then
deduplicate preserving first occurrence (`list(dict.fromkeys(...))`). -/
def get_wo_list (elems : List WoElem) : List (List Char) :=
  firstDedup (elems.filterMap (fun e =>
    let clean := normalizeWo (elemToken e)
    if clean ≠ [] && List.isPrefixOf ['W', 'O'] clean then Option.some clean
    else Option.none))

/-- The candidate tokens of a listing before deduplication (the `wo_numbers`
accumulator of the source loop). -/
def rawWoTokens (elems : List WoElem) : List (List Char) :=
  elems.filterMap (fun e =>
    let clean := normalizeWo (elemToken e)
    if clean ≠ [] && List.isPrefixOf ['W', 'O'] clean then Option.some clean
    else Option.none)

/-- `search_wipo(query, limit)` of `wipo_crawler_v2-v3.py`: collect
`docId=(WO\d+)` captures from the anchors' hrefs, deduplicate preserving
first occurrence, truncate to `limit`. -/
def v3_search_wipo (hrefs : List (List Char)) (limit : Nat) : List (List Char) :=
  (firstDedup (hrefs.filterMap docIdSearch)).take limit

/-! ## Search coordinator (`WIPOCrawlerV2.search_wipo`, lines 261-308) -/

/-- Whether the progress callback is invoked at loop index `idx`
(`if progress_callback and idx % 5 == 0`). -/
def callAt (cb : Option (Nat → Bool)) (idx : Nat) : Bool :=
  cb.isSome && decide (idx % 5 = 0)

/-- Whether the callback invocation at loop index `idx` raises. The callback
is modelled by the set of invocation indices at which it raises (index `0`
stands for the pre-loop invocation). -/
def raisedAt (cb : Option (Nat → Bool)) (idx : Nat) : Bool :=
  match cb with
  | Option.none => false
  | Option.some r => callAt cb idx && r idx

/-- Round a rational to the nearest integer, ties to even — the rounding of
IEEE 754 binary64 arithmetic applied at integer scale. -/
def nearestInt (q : ℚ) : ℤ :=
  if Int.fract q < 1 / 2 then ⌊q⌋
  else if 1 / 2 < Int.fract q then ⌊q⌋ + 1
  else if ⌊q⌋ % 2 = 0 then ⌊q⌋ else ⌊q⌋ + 1

/-- The binary64 (Python float) value nearest to a nonnegative rational:
scale into the 53-bit mantissa range `[2^52, 2^53)`, round to nearest with
ties to even, and scale back. Exact for the normal range of the format (the
only range the crawler's progress computation can reach); both the true
division `idx / total` and the product `d * 90` are correctly rounded this
way by IEEE arithmetic. -/
def roundq (q : ℚ) : ℚ :=
  if q ≤ 0 then 0
  else
    let k := Int.log 2 q
    (nearestInt (q * (2 : ℚ) ^ ((52 : ℤ) - k)) : ℚ) * (2 : ℚ) ^ (k - (52 : ℤ))

/-- The percent argument `5 + int((idx / total) * 90)` passed to the callback
inside the loop: the float quotient and the float product are each correctly
rounded binary64 results, and `int` truncates (= floor, the value being
nonnegative). -/
def progressPercent (idx total : Nat) : Nat :=
  5 + (⌊roundq (roundq ((idx : ℚ) / (total : ℚ)) * 90)⌋).toNat

/-- The per-identifier loop of `search_wipo`. The whole loop body is inside
`try: ... except Exception: self.stats.failures += 1; continue`, and the
callback invocation happens inside that `try` before the extraction, so a
raising callback skips the identifier. Accumulators: extracted patents
(reversed), statistics, callback invocations `(idx, percent)` (reversed). -/
def search_loop (env : SearchEnv) (cb : Option (Nat → Bool)) (total : Nat) :
    List (List Char) → Nat → List Patent → WIPOStats → List (Nat × Nat) →
    List Patent × WIPOStats × List (Nat × Nat)
  | [], _, acc, stats, calls => (acc.reverse, stats, calls.reverse)
  | wo :: rest, idx, acc, stats, calls =>
      let calls2 := if callAt cb idx then (idx, progressPercent idx total) :: calls else calls
      if raisedAt cb idx then
        search_loop env cb total rest (idx + 1) acc
          { stats with failures := stats.failures + 1 } calls2
      else
        match extract_patent_tiered env stats wo with
        | (ExtractOutcome.ok p, s2, _) =>
            search_loop env cb total rest (idx + 1) (p :: acc) s2 calls2
        | (_, s2, _) =>
            search_loop env cb total rest (idx + 1) acc
              { s2 with failures := s2.failures + 1 } calls2

/-- `search_wipo(query, max_results, progress_callback)`: pre-loop callback
invocation (whose exception is NOT caught), candidate listing, early return on
an empty listing, then the per-identifier loop over `wo_list[:max_results]`
with `total = min(len(wo_list), max_results)`. `Except.error ()` models the
call raising. -/
def search_wipo (env : SearchEnv) (listing : List WoElem) (max_results : Nat)
    (cb : Option (Nat → Bool)) (stats0 : WIPOStats) :
    Except Unit (List Patent × WIPOStats × List (Nat × Nat)) :=
  let preRaise := match cb with
    | Option.none => false
    | Option.some r => r 0
  if preRaise then Except.error ()
  else
    let calls0 : List (Nat × Nat) := if cb.isSome then [(0, 5)] else []
    let wo_list := get_wo_list listing
    if wo_list = [] then Except.ok ([], stats0, calls0)
    else
      let total := Nat.min wo_list.length max_results
      Except.ok (search_loop env cb total (wo_list.take max_results) 1 [] stats0 calls0)

/-! ## Claims extraction (`WIPOCrawler._extract_claims`, `wipo_crawler.py`
lines 401-436) -/

/-- One entry of the claims list built by `_extract_claims`. -/
structure ClaimRec where
  claim_number : Nat
  claim_type : String
  claim_text : List Char
deriving DecidableEq

/-- `re.match(r'^(\d+)\.\s*', text)` : leading digits, a period, then consumed
whitespace; returns `(int(group(1)), text[match.end():])`. -/
def matchClaimHead (t : List Char) : Option (Nat × List Char) :=
  let ds := t.takeWhile Char.isDigit
  match t.dropWhile Char.isDigit with
  | c :: r =>
      if c = '.' then
        if ds = [] then Option.none
        else Option.some (digitsVal ds, r.dropWhile isPySpace)
      else Option.none
  | [] => Option.none

/-- One window of `re.search(r'claim\s+\d+', claim_text, re.IGNORECASE)`:
the five letters of "claim" case-insensitively, at least one whitespace
character, then at least one digit. -/
def claimRefAt : List Char → Bool
  | c1 :: c2 :: c3 :: c4 :: c5 :: rest =>
      pyLower [c1, c2, c3, c4, c5] = "claim".toList &&
      !(rest.takeWhile isPySpace).isEmpty &&
      (match rest.dropWhile isPySpace with
       | d :: _ => d.isDigit
       | [] => false)
  | _ => false

/-- `re.search(r'claim\s+\d+', claim_text, re.IGNORECASE)` is truthy. -/
def hasClaimRef (l : List Char) : Bool :=
  l.tails.any claimRefAt

/-- `_extract_claims`: for each claim element's text, detect the leading claim
number; when present, emit a record with the number, the remaining stripped
text, and the dependent/independent classification; otherwise skip the
element. -/
def extract_claims : List (List Char) → List ClaimRec
  | [] => []
  | t :: ts =>
      match matchClaimHead t with
      | Option.some (n, r) =>
          let claim_text := pyStrip r
          { claim_number := n,
            claim_type := if hasClaimRef claim_text then "dependent" else "independent",
            claim_text := claim_text } :: extract_claims ts
      | Option.none => extract_claims ts

/-! ## Concrete environments used by witnesses and counterexamples -/

/-- A page whose structural title extraction yields a valid title and whose
other lookups yield fixed plain values; the Groq service always fails. -/
def peGood : ParseEnv :=
  { fieldWithLabel := fun labels _ =>
      if labels = ["Title", "TITLE"] then "Pharmaceutical composition of darolutamide".toList
      else if labels = ["Publication Number", "Publication No"] then "WO2022049075".toList
      else if labels = ["IPC", "Int. Cl.", "International Classification"] then "A61K 9/14".toList
      else "CPC data".toList
    listField := fun _ => ["Bayer AG".toList]
    abstractText := "An abstract.".toList
    html := "docHtml".toList
    groq := fun _ _ => Option.none }

/-- A world in which tier 1 succeeds for every identifier. -/
def envT1 : SearchEnv :=
  { tier1 := fun _ => FetchResult.page peGood
    tier2 := fun _ => FetchResult.extractionError
    use_playwright := true
    groq_api_key := Option.none }

/-- A world in which tier 1 always fails with `WIPOExtractionError` and
tier 2 succeeds for every identifier. -/
def envT2 : SearchEnv :=
  { tier1 := fun _ => FetchResult.extractionError
    tier2 := fun _ => FetchResult.page peGood
    use_playwright := true
    groq_api_key := Option.none }

/-- A world in which every tier fails for every identifier. -/
def envAllFail : SearchEnv :=
  { tier1 := fun _ => FetchResult.extractionError
    tier2 := fun _ => FetchResult.extractionError
    use_playwright := true
    groq_api_key := Option.none }

/-- A world in which tier 1 succeeds exactly for `WO1000001`. -/
def envMixed : SearchEnv :=
  { tier1 := fun wo =>
      if wo = "WO1000001".toList then FetchResult.page peGood else FetchResult.extractionError
    tier2 := fun _ => FetchResult.extractionError
    use_playwright := true
    groq_api_key := Option.none }

/-- A listing of five distinct well-formed identifiers. -/
def listing5 : List WoElem :=
  [{ text := "WO/1000001".toList, href := Option.none },
   { text := "WO1000002".toList, href := Option.none },
   { text := "WO1000003".toList, href := Option.none },
   { text := "WO1000004".toList, href := Option.none },
   { text := "WO1000005".toList, href := Option.none }]

/-- A listing of two identifiers (the first duplicated in the source). -/
def listing2 : List WoElem :=
  [{ text := "WO/1000001".toList, href := Option.none },
   { text := "WO1000002".toList, href := Option.none },
   { text := "WO1000001".toList, href := Option.none }]

/-- A concrete anchor-href listing with one duplicated identifier. -/
def hrefs0 : List (List Char) :=
  ["result.jsf?docId=WO2022049075".toList,
   "detail.jsf?docId=WO2019028689&tab=PCTCLAIMS".toList,
   "result.jsf?docId=WO2022049075".toList]

/-- The payload of a non-raising run (a harmless default on the error side,
used only to phrase closed witness statements). -/
def runParts (r : Except Unit (List Patent × WIPOStats × List (Nat × Nat))) :
    List Patent × WIPOStats × List (Nat × Nat) :=
  match r with
  | Except.ok x => x
  | Except.error _ => ([], ⟨0, 0, 0, 0⟩, [])

/-- Projection used by closed counterexamples: number of returned records and
final failures counter (`(0, 0)` when the call raised). -/
def runShape (r : Except Unit (List Patent × WIPOStats × List (Nat × Nat))) : Nat × Nat :=
  match r with
  | Except.ok x => (x.1.length, x.2.1.failures)
  | Except.error _ => (0, 0)

/-- Modelled from the spec: `success_rate = (attempts − failures) / attempts,
0 when attempts = 0` — the claim's formula, without the code's `* 100`. -/
def spec_success_rate (s : WIPOStats) : ℚ :=
  if attempts s = 0 then 0
  else ((attempts s : ℚ) - (s.failures : ℚ)) / (attempts s : ℚ)

/-- Modelled from the spec: the claim's classification-code shape
"letter + two digits + letter (as in A61K)", matched anywhere in the value. -/
def specLetterShape (l : List Char) : Bool :=
  l.tails.any (fun t =>
    match t with
    | a :: b :: c :: d :: _ => a.isAlpha && b.isDigit && c.isDigit && d.isAlpha
    | _ => false)

/-- A page whose applicants lookup is empty and whose Groq service answers the
applicants prompt with a too-short value; everything else is plain. -/
def peShortApplicants : ParseEnv :=
  { fieldWithLabel := fun _ _ => "A valid looking patent title".toList
    listField := fun _ => []
    abstractText := []
    html := []
    groq := fun _ f =>
      if f = "applicants (comma separated)" then Option.some "ab".toList else Option.none }

/-- A page whose structural title is UI noise and whose Groq service recovers
a valid title. -/
def peRecoveredTitle : ParseEnv :=
  { fieldWithLabel := fun labels _ =>
      if labels = ["Title", "TITLE"] then "Close".toList else "X".toList
    listField := fun _ => ["Bayer AG".toList]
    abstractText := []
    html := []
    groq := fun _ f =>
      if f = "patent title" then Option.some "A recovered patent title".toList
      else Option.none }

/-- The identifier list the coordinator's loop actually iterates over
(`wo_list[:max_results]`). -/
def processedList (listing : List WoElem) (max_results : Nat) : List (List Char) :=
  (get_wo_list listing).take max_results

/-- The coordinator's `total = min(len(wo_list), max_results)`. -/
def totalOf (listing : List WoElem) (max_results : Nat) : Nat :=
  Nat.min (get_wo_list listing).length max_results

/-! ## Lemmas about first-occurrence deduplication -/

lemma firstDedupAux_sublist {α : Type} [DecidableEq α] :
    ∀ (l seen : List α), (firstDedupAux l seen).Sublist l := by
  intro l
  induction l with
  | nil => intro seen; simp [firstDedupAux]
  | cons a t ih =>
      intro seen
      by_cases h : a ∈ seen
      · simp only [firstDedupAux, if_pos h]
        exact (ih seen).trans (List.sublist_cons_self a t)
      · simp only [firstDedupAux, if_neg h]
        exact (ih (a :: seen)).cons₂ a

lemma mem_firstDedupAux {α : Type} [DecidableEq α] :
    ∀ (l seen : List α) (x : α), x ∈ firstDedupAux l seen ↔ x ∈ l ∧ x ∉ seen := by
  intro l
  induction l with
  | nil => intro seen x; simp [firstDedupAux]
  | cons a t ih =>
      intro seen x
      by_cases h : a ∈ seen
      · simp only [firstDedupAux, if_pos h, ih, List.mem_cons]
        constructor
        · rintro ⟨hx, hn⟩; exact ⟨Or.inr hx, hn⟩
        · rintro ⟨hx | hx, hn⟩
          · exact absurd (hx ▸ h) hn
          · exact ⟨hx, hn⟩
      · simp only [firstDedupAux, if_neg h, List.mem_cons, ih]
        constructor
        · rintro (rfl | ⟨hx, hn⟩)
          · exact ⟨Or.inl rfl, h⟩
          · exact ⟨Or.inr hx, fun hc => hn (Or.inr hc)⟩
        · rintro ⟨hx | hx, hn⟩
          · exact Or.inl hx
          · by_cases hax : x = a
            · exact Or.inl hax
            · exact Or.inr ⟨hx, fun hc => hc.elim hax hn⟩

lemma nodup_firstDedupAux {α : Type} [DecidableEq α] :
    ∀ (l seen : List α), (firstDedupAux l seen).Nodup := by
  intro l
  induction l with
  | nil => intro seen; simp [firstDedupAux]
  | cons a t ih =>
      intro seen
      by_cases h : a ∈ seen
      · simpa [firstDedupAux, if_pos h] using ih seen
      · simp only [firstDedupAux, if_neg h, List.nodup_cons]
        refine ⟨fun hc => ?_, ih (a :: seen)⟩
        exact ((mem_firstDedupAux t (a :: seen) a).mp hc).2 (List.mem_cons_self a seen)

lemma firstDedup_sublist {α : Type} [DecidableEq α] (l : List α) :
    (firstDedup l).Sublist l :=
  firstDedupAux_sublist l []

lemma firstDedup_nodup {α : Type} [DecidableEq α] (l : List α) :
    (firstDedup l).Nodup :=
  nodup_firstDedupAux l []

lemma mem_firstDedup {α : Type} [DecidableEq α] (l : List α) (x : α) :
    x ∈ firstDedup l ↔ x ∈ l := by
  simpa using mem_firstDedupAux l [] x

/-! ## Lemmas about the Validator -/

lemma looks_wrong_pub_eq (v : List Char) :
    looks_wrong v "publication_number" =
      (if pyStrip v = [] then true
       else if invalid_patterns.contains (pyLower (pyStrip v)) then true
       else !(List.isPrefixOf ['W', 'O'] (pyStrip v))) := rfl

lemma looks_wrong_ipc_eq (v : List Char) :
    looks_wrong v "ipc" =
      (if pyStrip v = [] then true
       else if invalid_patterns.contains (pyLower (pyStrip v)) then true
       else !(hasIpcWindow (pyStrip v))) := rfl

lemma looks_wrong_cpc_eq (v : List Char) :
    looks_wrong v "cpc" =
      (if pyStrip v = [] then true
       else if invalid_patterns.contains (pyLower (pyStrip v)) then true
       else false) := rfl

/-- No string starting with the two characters `wo` belongs to the UI-noise
vocabulary. -/
lemma no_pattern_wo (t : List Char) :
    invalid_patterns.contains ('w' :: 'o' :: t) = false := by
  by_contra h
  have hmem : ('w' :: 'o' :: t) ∈ invalid_patterns :=
    List.elem_iff.mp (by simpa using h)
  have hhead : ∀ p ∈ invalid_patterns, p.head? ≠ Option.some 'w' := by decide
  exact hhead _ hmem rfl

/-- `'W' :: 'O' :: _` shape from a successful `startswith('WO')` test. -/
lemma prefix_wo_shape {l : List Char} (h : List.isPrefixOf ['W', 'O'] l = true) :
    ∃ t, l = 'W' :: 'O' :: t := by
  obtain ⟨t, ht⟩ := List.isPrefixOf_iff_prefix.mp h
  exact ⟨t, ht.symm⟩

lemma pyLower_wo (t : List Char) :
    pyLower ('W' :: 'O' :: t) = 'w' :: 'o' :: pyLower t := rfl

/-! ## Lemmas about tiered extraction -/

lemma tiered_fst_stats (env : SearchEnv) (s t : WIPOStats) (wo : List Char) :
    (extract_patent_tiered env s wo).1 = (extract_patent_tiered env t wo).1 := by
  unfold extract_patent_tiered
  cases h1 : extract_static_httpx env wo <;> simp only []
  by_cases hp : env.use_playwright <;> simp only [hp, if_true, if_false]
  · cases h2 : extract_direct_playwright env wo <;> simp only []
  · rfl

lemma tiered_trace_stats (env : SearchEnv) (s t : WIPOStats) (wo : List Char) :
    (extract_patent_tiered env s wo).2.2 = (extract_patent_tiered env t wo).2.2 := by
  unfold extract_patent_tiered
  cases h1 : extract_static_httpx env wo <;> simp only []
  by_cases hp : env.use_playwright <;> simp only [hp, if_true, if_false]
  · cases h2 : extract_direct_playwright env wo <;> simp only []
  · rfl

lemma tiered_failures (env : SearchEnv) (s : WIPOStats) (wo : List Char) :
    (extract_patent_tiered env s wo).2.1.failures = s.failures := by
  unfold extract_patent_tiered
  cases h1 : extract_static_httpx env wo <;> simp only []
  by_cases hp : env.use_playwright <;> simp only [hp, if_true, if_false]
  · cases h2 : extract_direct_playwright env wo <;> simp only []
  · rfl

lemma extractResult_eq (env : SearchEnv) (stats : WIPOStats) (wo : List Char) :
    extractResult env wo =
      (match (extract_patent_tiered env stats wo).1 with
       | ExtractOutcome.ok p => Option.some p
       | _ => Option.none) := by
  rw [extractResult, tiered_fst_stats env ⟨0, 0, 0, 0⟩ stats wo]

/-! ## Claim C1 -/

/-- Claim C1 counterexample: after two tier-1 successes and no failures the
code returns `100`, while the claim's formula `(attempts − failures) /
attempts` yields `1`; the two parts of the claim are therefore incompatible
and the formula part is false of `success_rate`. -/
theorem claim_C1_counterexample :
    success_rate ⟨2, 0, 0, 0⟩ = 100 ∧ spec_success_rate ⟨2, 0, 0, 0⟩ = 1 ∧
    success_rate ⟨2, 0, 0, 0⟩ ≠ spec_success_rate ⟨2, 0, 0, 0⟩ := by
  refine ⟨by norm_num [success_rate], by norm_num [spec_success_rate, attempts], ?_⟩
  norm_num [success_rate, spec_success_rate, attempts]

/-- Claim C1 (amended): `success_rate()` equals
`(attempts − failures) / attempts * 100` — a percentage — where attempts is
the sum of the three per-tier success counters plus the failures counter, and
equals 0 when attempts = 0; after two tier-1 successes and no failures it is
`100.0`. -/
theorem claim_C1_amended :
    (∀ s : WIPOStats, attempts s = 0 → success_rate s = 0) ∧
    (∀ s : WIPOStats, attempts s ≠ 0 →
      success_rate s = ((attempts s : ℚ) - (s.failures : ℚ)) / (attempts s : ℚ) * 100) ∧
    success_rate ⟨2, 0, 0, 0⟩ = 100 := by
  refine ⟨fun s h => ?_, fun s h => ?_, by norm_num [success_rate]⟩
  · simp only [success_rate]
    rw [if_pos (by simpa [attempts] using h)]
  · simp only [success_rate, attempts] at h ⊢
    rw [if_neg h]

/-- Witness for claim C1's amended theorem at a concrete state. -/
theorem claim_C1_witness :
    attempts ⟨2, 0, 0, 0⟩ ≠ 0 ∧
    success_rate ⟨2, 0, 0, 0⟩ =
      ((attempts ⟨2, 0, 0, 0⟩ : ℚ) - (((⟨2, 0, 0, 0⟩ : WIPOStats).failures : ℚ))) /
        (attempts ⟨2, 0, 0, 0⟩ : ℚ) * 100 :=
  ⟨by norm_num [attempts], claim_C1_amended.2.1 ⟨2, 0, 0, 0⟩ (by norm_num [attempts])⟩

/-! ## Claim C7 -/

lemma dropWhile_idem (p : Char → Bool) (l : List Char) :
    (l.dropWhile p).dropWhile p = l.dropWhile p := by
  induction l with
  | nil => rfl
  | cons c t ih =>
      by_cases hc : p c = true
      · simp only [List.dropWhile_cons, hc, if_pos rfl]
        exact ih
      · have hc' : p c = false := Bool.eq_false_iff.mpr hc
        simp [List.dropWhile_cons, hc']

/-- The head surviving a `dropWhile` fails the predicate. -/
lemma p_head_dropWhile {p : Char → Bool} :
    ∀ {l : List Char} {a : Char} {t : List Char},
      l.dropWhile p = a :: t → p a = false := by
  intro l
  induction l with
  | nil => intro a t h; simp at h
  | cons c l' ih =>
      intro a t h
      by_cases hc : p c = true
      · rw [List.dropWhile_cons, if_pos hc] at h
        exact ih h
      · have hc' : p c = false := Bool.eq_false_iff.mpr hc
        rw [List.dropWhile_cons, if_neg (by simp [hc'])] at h
        injection h with h1 _
        rw [← h1]
        exact hc'

lemma dropWhile_append_singleton {p : Char → Bool} {a : Char} (ha : p a = false) :
    ∀ xs : List Char, (xs ++ [a]).dropWhile p = xs.dropWhile p ++ [a] := by
  intro xs
  induction xs with
  | nil => simp [List.dropWhile_cons, ha]
  | cons c xs' ih =>
      by_cases hc : p c = true
      · simp only [List.cons_append, List.dropWhile_cons, hc, if_pos rfl]
        exact ih
      · have hc' : p c = false := Bool.eq_false_iff.mpr hc
        simp [List.dropWhile_cons, hc']

/-- A stripped value has no leading whitespace left. -/
lemma dropWhile_pyStrip (l : List Char) :
    (pyStrip l).dropWhile isPySpace = pyStrip l := by
  unfold pyStrip
  cases hu : l.dropWhile isPySpace with
  | nil => simp
  | cons a t =>
      have ha : isPySpace a = false := p_head_dropWhile hu
      rw [List.reverse_cons, dropWhile_append_singleton ha, List.reverse_append]
      simp [List.dropWhile_cons, ha]

/-- Python `strip()` is idempotent. -/
lemma pyStrip_idem (l : List Char) : pyStrip (pyStrip l) = pyStrip l := by
  have h1 : (pyStrip l).dropWhile isPySpace = pyStrip l := dropWhile_pyStrip l
  have h2 : (pyStrip l).reverse =
      (l.dropWhile isPySpace).reverse.dropWhile isPySpace := by
    simp [pyStrip]
  show ((((pyStrip l).dropWhile isPySpace).reverse).dropWhile isPySpace).reverse =
    pyStrip l
  rw [h1, h2, dropWhile_idem]
  simp [pyStrip]


/-- Claim C7: the Validator is a deterministic pure function of
`(value, kind)`, and for kind `publication_number` the value is reported
wrong exactly when it lacks the canonical `WO` prefix; in particular
`looks_wrong("WO2022049075") = false` and `looks_wrong("XY123") = true`.
The prefix is read on the stripped value, which is faithful because the
Validator strips its input first — the final conjunct shows `looks_wrong` is
invariant under stripping, for every kind. -/
theorem claim_C7 :
    (∀ (v : List Char) (k : String), looks_wrong v k = looks_wrong v k) ∧
    (∀ v : List Char, looks_wrong v "publication_number" =
      !(List.isPrefixOf ['W', 'O'] (pyStrip v))) ∧
    looks_wrong "WO2022049075".toList "publication_number" = false ∧
    looks_wrong "XY123".toList "publication_number" = true ∧
    (∀ (v : List Char) (k : String), looks_wrong (pyStrip v) k = looks_wrong v k) := by
  refine ⟨fun _ _ => rfl, fun v => ?_, by decide, by decide, fun v k => ?_⟩
  case refine_2 =>
    simp only [looks_wrong]
    rw [pyStrip_idem]
  rw [looks_wrong_pub_eq]
  by_cases h1 : pyStrip v = []
  · rw [if_pos h1, h1]
    decide
  · rw [if_neg h1]
    by_cases h2 : invalid_patterns.contains (pyLower (pyStrip v)) = true
    · rw [if_pos h2]
      cases hpre : List.isPrefixOf ['W', 'O'] (pyStrip v) with
      | false => rfl
      | true =>
          obtain ⟨t, ht⟩ := prefix_wo_shape hpre
          rw [ht, pyLower_wo, no_pattern_wo] at h2
          exact absurd h2 (by simp)
    · rw [if_neg h2]

/-! ## Claim C8 -/

/-- Claim C8 counterexample: `"xyz"` is non-empty, non-noise and lacks the
classification shape, yet the Validator does not report it wrong for kind
`cpc` (there is no cpc branch in `looks_wrong`); and `"Z61K"` matches the
claim's "letter + two digits + letter" shape yet is reported wrong for kind
`ipc` (the code restricts the first letter to A–H). -/
theorem claim_C8_counterexample :
    pyStrip "xyz".toList ≠ [] ∧
    invalid_patterns.contains (pyLower (pyStrip "xyz".toList)) = false ∧
    specLetterShape "xyz".toList = false ∧
    looks_wrong "xyz".toList "cpc" = false ∧
    specLetterShape "Z61K".toList = true ∧
    looks_wrong "Z61K".toList "ipc" = true := by decide

/-- Claim C8 (amended): for every non-empty, non-noise value, kind `ipc` is
reported wrong exactly when no four-character window of the value matches
`[A-H]` digit digit `[A-Z]`; kind `cpc` gets no shape check at all — it is
never reported wrong once non-empty and non-noise — and
`_parse_biblio_robust` stores the structural CPC value without validation. -/
theorem claim_C8_amended :
    (∀ v : List Char, pyStrip v ≠ [] →
      invalid_patterns.contains (pyLower (pyStrip v)) = false →
      looks_wrong v "ipc" = !(hasIpcWindow (pyStrip v)) ∧
      looks_wrong v "cpc" = false) ∧
    (∀ (pe : ParseEnv) (key : Option String),
      (parse_biblio_robust pe key).cpc_codes = structCpc pe) := by
  refine ⟨fun v h1 h2 => ⟨?_, ?_⟩, fun pe key => rfl⟩
  · rw [looks_wrong_ipc_eq, if_neg h1, if_neg (by rw [h2]; exact Bool.false_ne_true)]
  · rw [looks_wrong_cpc_eq, if_neg h1, if_neg (by rw [h2]; exact Bool.false_ne_true)]

/-- Witness for claim C8's amended theorem at concrete values. -/
theorem claim_C8_witness :
    (pyStrip "A61K 9/14".toList ≠ [] ∧
     invalid_patterns.contains (pyLower (pyStrip "A61K 9/14".toList)) = false) ∧
    looks_wrong "A61K 9/14".toList "ipc" = !(hasIpcWindow (pyStrip "A61K 9/14".toList)) ∧
    looks_wrong "A61K 9/14".toList "cpc" = false :=
  ⟨⟨by decide, by decide⟩,
   claim_C8_amended.1 "A61K 9/14".toList (by decide) (by decide)⟩

/-! ## Claim C3 -/

lemma chain_lt_one : List.Chain' (fun a b : Nat => a < b) [1] :=
  List.chain'_singleton 1

lemma chain_lt_onetwo : List.Chain' (fun a b : Nat => a < b) [1, 2] :=
  List.chain'_cons.mpr ⟨by norm_num, List.chain'_singleton 2⟩

lemma nodup_one : ([1] : List Nat).Nodup := List.nodup_singleton 1

lemma nodup_onetwo : ([1, 2] : List Nat).Nodup := by norm_num

lemma sub_one_onetwo : ([1] : List Nat).Sublist [1, 2] :=
  List.Sublist.cons₂ 1 (List.nil_sublist [2])

lemma sub_onetwo_onetwo : ([1, 2] : List Nat).Sublist [1, 2] :=
  List.Sublist.refl _

/-- Claim C3: per identifier, the attempted-tier trace of
`_extract_patent_tiered` is strictly ascending (tier 1 before tier 2, never a
lower tier after a higher one), visits each tier at most once, and the
escalation stops at the first succeeding tier: on success the last attempted
tier succeeds and every earlier attempted tier failed; on failure no
attempted tier succeeds. -/
theorem claim_C3 (env : SearchEnv) (s : WIPOStats) (wo : List Char) :
    List.Chain' (fun a b => a < b) (extract_patent_tiered env s wo).2.2 ∧
    (extract_patent_tiered env s wo).2.2.Nodup ∧
    (extract_patent_tiered env s wo).2.2.Sublist [1, 2] ∧
    ((extract_patent_tiered env s wo).1.isOk = true →
      Option.any (fun t => tierSucceeds env wo t)
          (extract_patent_tiered env s wo).2.2.getLast? = true ∧
      (extract_patent_tiered env s wo).2.2.dropLast.all
          (fun u => !(tierSucceeds env wo u)) = true) ∧
    ((extract_patent_tiered env s wo).1.isOk = false →
      (extract_patent_tiered env s wo).2.2.all
          (fun u => !(tierSucceeds env wo u)) = true) := by
  cases h1 : extract_static_httpx env wo with
  | ok p =>
      have ht : (extract_patent_tiered env s wo).2.2 = [1] := by
        simp [extract_patent_tiered, h1]
      have ho : (extract_patent_tiered env s wo).1 = ExtractOutcome.ok p := by
        simp [extract_patent_tiered, h1]
      rw [ht, ho]
      refine ⟨chain_lt_one, nodup_one, sub_one_onetwo, fun _ => ⟨?_, rfl⟩, fun hk => ?_⟩
      · simp [tierSucceeds, h1, ExtractOutcome.isOk]
      · simp [ExtractOutcome.isOk] at hk
  | otherErr =>
      have ht : (extract_patent_tiered env s wo).2.2 = [1] := by
        simp [extract_patent_tiered, h1]
      have ho : (extract_patent_tiered env s wo).1 = ExtractOutcome.otherErr := by
        simp [extract_patent_tiered, h1]
      rw [ht, ho]
      refine ⟨chain_lt_one, nodup_one, sub_one_onetwo, fun hk => ?_, fun _ => ?_⟩
      · simp [ExtractOutcome.isOk] at hk
      · simp [tierSucceeds, h1, ExtractOutcome.isOk]
  | wipoErr =>
      by_cases hp : env.use_playwright = true
      · cases h2 : extract_direct_playwright env wo with
        | ok p =>
            have ht : (extract_patent_tiered env s wo).2.2 = [1, 2] := by
              simp [extract_patent_tiered, h1, hp, h2]
            have ho : (extract_patent_tiered env s wo).1 = ExtractOutcome.ok p := by
              simp [extract_patent_tiered, h1, hp, h2]
            rw [ht, ho]
            refine ⟨chain_lt_onetwo, nodup_onetwo, sub_onetwo_onetwo,
              fun _ => ⟨?_, ?_⟩, fun hk => ?_⟩
            · simp [tierSucceeds, h2, ExtractOutcome.isOk]
            · simp [tierSucceeds, h1, ExtractOutcome.isOk]
            · simp [ExtractOutcome.isOk] at hk
        | otherErr =>
            have ht : (extract_patent_tiered env s wo).2.2 = [1, 2] := by
              simp [extract_patent_tiered, h1, hp, h2]
            have ho : (extract_patent_tiered env s wo).1 = ExtractOutcome.otherErr := by
              simp [extract_patent_tiered, h1, hp, h2]
            rw [ht, ho]
            refine ⟨chain_lt_onetwo, nodup_onetwo, sub_onetwo_onetwo,
              fun hk => ?_, fun _ => ?_⟩
            · simp [ExtractOutcome.isOk] at hk
            · simp [tierSucceeds, h1, h2, ExtractOutcome.isOk]
        | wipoErr =>
            have ht : (extract_patent_tiered env s wo).2.2 = [1, 2] := by
              simp [extract_patent_tiered, h1, hp, h2]
            have ho : (extract_patent_tiered env s wo).1 = ExtractOutcome.wipoErr := by
              simp [extract_patent_tiered, h1, hp, h2]
            rw [ht, ho]
            refine ⟨chain_lt_onetwo, nodup_onetwo, sub_onetwo_onetwo,
              fun hk => ?_, fun _ => ?_⟩
            · simp [ExtractOutcome.isOk] at hk
            · simp [tierSucceeds, h1, h2, ExtractOutcome.isOk]
      · have hp' : env.use_playwright = false := by
          cases hb : env.use_playwright
          · rfl
          · exact absurd hb hp
        have ht : (extract_patent_tiered env s wo).2.2 = [1] := by
          simp [extract_patent_tiered, h1, hp']
        have ho : (extract_patent_tiered env s wo).1 = ExtractOutcome.wipoErr := by
          simp [extract_patent_tiered, h1, hp']
        rw [ht, ho]
        refine ⟨chain_lt_one, nodup_one, sub_one_onetwo, fun hk => ?_, fun _ => ?_⟩
        · simp [ExtractOutcome.isOk] at hk
        · simp [tierSucceeds, h1, ExtractOutcome.isOk]

/-- Witness for claim C3 in a world where tier 1 fails with
`WIPOExtractionError` and tier 2 succeeds. -/
theorem claim_C3_witness :
    Option.any (fun t => tierSucceeds envT2 "WO1000001".toList t)
        (extract_patent_tiered envT2 ⟨0, 0, 0, 0⟩ "WO1000001".toList).2.2.getLast? = true ∧
    (extract_patent_tiered envT2 ⟨0, 0, 0, 0⟩ "WO1000001".toList).2.2.dropLast.all
        (fun u => !(tierSucceeds envT2 "WO1000001".toList u)) = true :=
  (claim_C3 envT2 ⟨0, 0, 0, 0⟩ "WO1000001".toList).2.2.2.1 (by decide)

/-! ## Claim C5 -/

lemma parse_title_eq (pe : ParseEnv) (key : Option String) :
    (parse_biblio_robust pe key).title =
      (if looks_wrong (structTitle pe) "title" then
        match groq_extract_field pe "patent title" key with
        | Option.some g =>
            if g ≠ [] && !(looks_wrong g "title") then g else structTitle pe
        | Option.none => structTitle pe
      else structTitle pe) := rfl

lemma parse_ipc_eq (pe : ParseEnv) (key : Option String) :
    (parse_biblio_robust pe key).ipc_codes =
      (if looks_wrong (structIpc pe) "ipc" then
        match groq_extract_field pe "IPC classification codes" key with
        | Option.some g =>
            if g ≠ [] && !(looks_wrong g "ipc") then g else structIpc pe
        | Option.none => structIpc pe
      else structIpc pe) := rfl

lemma parse_apps_eq (pe : ParseEnv) (key : Option String) :
    (parse_biblio_robust pe key).applicants =
      (if applicantsEscalate (structApplicants pe) then
        match groq_extract_field pe "applicants (comma separated)" key with
        | Option.some g => if g ≠ [] then splitCommaStrip g else structApplicants pe
        | Option.none => structApplicants pe
      else structApplicants pe).take 10 := rfl

lemma groq_none_of_key_none (pe : ParseEnv) (f : String) :
    groq_extract_field pe f Option.none = Option.none := rfl

lemma groq_none_of_service_none (pe : ParseEnv) (f : String) (key : Option String)
    (h : ∀ s g, pe.groq s g = Option.none) :
    groq_extract_field pe f key = Option.none := by
  cases key with
  | none => rfl
  | some k => simp [groq_extract_field, h]

/-- Claim C5 counterexample: with an empty structural applicants list the
field escalates to the semantic fallback, whose returned value `"ab"` fails
the Validator for kind `applicants`, yet it replaces the structural candidate
anyway. -/
theorem claim_C5_counterexample :
    (parse_biblio_robust peShortApplicants (Option.some "key")).applicants =
      ["ab".toList] ∧
    looks_wrong "ab".toList "applicants" = true := by
  constructor
  · rfl
  · decide

/-- Claim C5 (amended): for the title and IPC fields the fallback's returned
value replaces the structural candidate only if it passes the Validator,
otherwise the structural value is retained; for the applicants field a
nonempty fallback answer replaces the structural candidate unconditionally
(split on commas, entries stripped), without a Validator check; a fallback
failure or absent credentials leaves every escalated field unchanged, and
parsing always completes (it never aborts the enclosing attempt). -/
theorem claim_C5_amended (pe : ParseEnv) (key : Option String) :
    ((parse_biblio_robust pe key).title ≠ structTitle pe →
      looks_wrong (parse_biblio_robust pe key).title "title" = false) ∧
    ((parse_biblio_robust pe key).ipc_codes ≠ structIpc pe →
      looks_wrong (parse_biblio_robust pe key).ipc_codes "ipc" = false) ∧
    (applicantsEscalate (structApplicants pe) = true →
      ∀ g, groq_extract_field pe "applicants (comma separated)" key = Option.some g →
        g ≠ [] → (parse_biblio_robust pe key).applicants = (splitCommaStrip g).take 10) ∧
    (key = Option.none →
      (parse_biblio_robust pe key).title = structTitle pe ∧
      (parse_biblio_robust pe key).ipc_codes = structIpc pe ∧
      (parse_biblio_robust pe key).applicants = (structApplicants pe).take 10) ∧
    ((∀ s g, pe.groq s g = Option.none) →
      (parse_biblio_robust pe key).title = structTitle pe ∧
      (parse_biblio_robust pe key).ipc_codes = structIpc pe ∧
      (parse_biblio_robust pe key).applicants = (structApplicants pe).take 10) := by
  refine ⟨?_, ?_, ?_, ?_, ?_⟩
  · rw [parse_title_eq]
    by_cases hw : looks_wrong (structTitle pe) "title" = true
    · rw [if_pos hw]
      cases hg : groq_extract_field pe "patent title" key with
      | none => intro h; exact absurd rfl h
      | some g =>
          dsimp only
          by_cases hc : (decide (g ≠ []) && !(looks_wrong g "title")) = true
          · rw [if_pos hc]
            intro _
            have := (Bool.and_eq_true _ _).mp hc
            simpa using this.2
          · rw [if_neg hc]; intro h; exact absurd rfl h
    · rw [if_neg hw]; intro h; exact absurd rfl h
  · rw [parse_ipc_eq]
    by_cases hw : looks_wrong (structIpc pe) "ipc" = true
    · rw [if_pos hw]
      cases hg : groq_extract_field pe "IPC classification codes" key with
      | none => intro h; exact absurd rfl h
      | some g =>
          dsimp only
          by_cases hc : (decide (g ≠ []) && !(looks_wrong g "ipc")) = true
          · rw [if_pos hc]
            intro _
            have := (Bool.and_eq_true _ _).mp hc
            simpa using this.2
          · rw [if_neg hc]; intro h; exact absurd rfl h
    · rw [if_neg hw]; intro h; exact absurd rfl h
  · intro he g hg hne
    rw [parse_apps_eq, if_pos he, hg]
    dsimp only
    rw [if_pos (by simpa using hne)]
  · intro hk
    subst hk
    refine ⟨?_, ?_, ?_⟩
    · rw [parse_title_eq, groq_none_of_key_none]
      by_cases hw : looks_wrong (structTitle pe) "title" = true
      · rw [if_pos hw]
      · rw [if_neg hw]
    · rw [parse_ipc_eq, groq_none_of_key_none]
      by_cases hw : looks_wrong (structIpc pe) "ipc" = true
      · rw [if_pos hw]
      · rw [if_neg hw]
    · rw [parse_apps_eq, groq_none_of_key_none]
      by_cases hw : applicantsEscalate (structApplicants pe) = true
      · rw [if_pos hw]
      · rw [if_neg hw]
  · intro hsvc
    refine ⟨?_, ?_, ?_⟩
    · rw [parse_title_eq, groq_none_of_service_none pe _ key hsvc]
      by_cases hw : looks_wrong (structTitle pe) "title" = true
      · rw [if_pos hw]
      · rw [if_neg hw]
    · rw [parse_ipc_eq, groq_none_of_service_none pe _ key hsvc]
      by_cases hw : looks_wrong (structIpc pe) "ipc" = true
      · rw [if_pos hw]
      · rw [if_neg hw]
    · rw [parse_apps_eq, groq_none_of_service_none pe _ key hsvc]
      by_cases hw : applicantsEscalate (structApplicants pe) = true
      · rw [if_pos hw]
      · rw [if_neg hw]

/-- Witness for claim C5's amended theorem: a recovered title that passes the
Validator, and a no-service page left fully unchanged. -/
theorem claim_C5_witness :
    looks_wrong (parse_biblio_robust peRecoveredTitle (Option.some "key")).title "title" =
      false ∧
    ((parse_biblio_robust peGood Option.none).title = structTitle peGood ∧
     (parse_biblio_robust peGood Option.none).ipc_codes = structIpc peGood ∧
     (parse_biblio_robust peGood Option.none).applicants =
       (structApplicants peGood).take 10) :=
  ⟨(claim_C5_amended peRecoveredTitle (Option.some "key")).1 (by decide),
   (claim_C5_amended peGood Option.none).2.2.2.1 rfl⟩

/-! ## Lemmas about the search loop -/

lemma search_loop_patents (env : SearchEnv) (cb : Option (Nat → Bool)) (total : Nat) :
    ∀ (ws : List (List Char)) (idx : Nat) (acc : List Patent) (stats : WIPOStats)
      (calls : List (Nat × Nat)),
      (search_loop env cb total ws idx acc stats calls).1 =
        acc.reverse ++ (ws.enumFrom idx).filterMap
          (fun e => if raisedAt cb e.1 then Option.none else extractResult env e.2) := by
  intro ws
  induction ws with
  | nil => intro idx acc stats calls; simp [search_loop]
  | cons wo rest ih =>
      intro idx acc stats calls
      simp only [search_loop, List.enumFrom_cons, List.filterMap_cons]
      by_cases hr : raisedAt cb idx = true
      · rw [if_pos hr, ih]
        simp [hr]
      · rw [if_neg hr]
        rcases hres : extract_patent_tiered env stats wo with ⟨out, s2, tr⟩
        cases out with
        | ok p =>
            have hex : extractResult env wo = Option.some p := by
              rw [extractResult_eq env stats wo, hres]
            dsimp only
            rw [ih]
            simp [hr, hex]
        | wipoErr =>
            have hex : extractResult env wo = Option.none := by
              rw [extractResult_eq env stats wo, hres]
            dsimp only
            rw [ih]
            simp [hr, hex]
        | otherErr =>
            have hex : extractResult env wo = Option.none := by
              rw [extractResult_eq env stats wo, hres]
            dsimp only
            rw [ih]
            simp [hr, hex]

lemma search_loop_failures (env : SearchEnv) (cb : Option (Nat → Bool)) (total : Nat) :
    ∀ (ws : List (List Char)) (idx : Nat) (acc : List Patent) (stats : WIPOStats)
      (calls : List (Nat × Nat)),
      (search_loop env cb total ws idx acc stats calls).2.1.failures =
        stats.failures + (ws.enumFrom idx).countP
          (fun e => raisedAt cb e.1 || (extractResult env e.2).isNone) := by
  intro ws
  induction ws with
  | nil => intro idx acc stats calls; simp [search_loop]
  | cons wo rest ih =>
      intro idx acc stats calls
      simp only [search_loop, List.enumFrom_cons, List.countP_cons]
      by_cases hr : raisedAt cb idx = true
      · rw [if_pos hr, ih]
        simp [hr]
        omega
      · rw [if_neg hr]
        rcases hres : extract_patent_tiered env stats wo with ⟨out, s2, tr⟩
        have hs2 : s2.failures = stats.failures := by
          have hfl := tiered_failures env stats wo
          rw [hres] at hfl
          exact hfl
        cases out with
        | ok p =>
            have hex : extractResult env wo = Option.some p := by
              rw [extractResult_eq env stats wo, hres]
            dsimp only
            rw [ih]
            simp [hr, hex, hs2]
        | wipoErr =>
            have hex : extractResult env wo = Option.none := by
              rw [extractResult_eq env stats wo, hres]
            dsimp only
            rw [ih]
            simp only [hs2]
            simp [hr, hex]
            omega
        | otherErr =>
            have hex : extractResult env wo = Option.none := by
              rw [extractResult_eq env stats wo, hres]
            dsimp only
            rw [ih]
            simp only [hs2]
            simp [hr, hex]
            omega

lemma search_loop_calls (env : SearchEnv) (cb : Option (Nat → Bool)) (total : Nat) :
    ∀ (ws : List (List Char)) (idx : Nat) (acc : List Patent) (stats : WIPOStats)
      (calls : List (Nat × Nat)),
      (search_loop env cb total ws idx acc stats calls).2.2 =
        calls.reverse ++ (ws.enumFrom idx).filterMap
          (fun e => if callAt cb e.1 then
              Option.some (e.1, progressPercent e.1 total) else Option.none) := by
  intro ws
  induction ws with
  | nil => intro idx acc stats calls; simp [search_loop]
  | cons wo rest ih =>
      intro idx acc stats calls
      simp only [search_loop, List.enumFrom_cons, List.filterMap_cons]
      by_cases hc : callAt cb idx = true
      · by_cases hr : raisedAt cb idx = true
        · rw [if_pos hr, ih]
          simp [hc]
        · rw [if_neg hr]
          rcases hres : extract_patent_tiered env stats wo with ⟨out, s2, tr⟩
          cases out with
          | ok p => dsimp only; rw [ih]; simp [hc]
          | wipoErr => dsimp only; rw [ih]; simp [hc]
          | otherErr => dsimp only; rw [ih]; simp [hc]
      · have hr : raisedAt cb idx = false := by
          cases cb with
          | none => rfl
          | some r =>
              have hcf : callAt (Option.some r) idx = false := Bool.eq_false_iff.mpr hc
              simp [raisedAt, hcf]
        rw [hr]
        simp only [Bool.false_eq_true, if_false]
        rcases hres : extract_patent_tiered env stats wo with ⟨out, s2, tr⟩
        cases out with
        | ok p => dsimp only; rw [ih]; simp [hc]
        | wipoErr => dsimp only; rw [ih]; simp [hc]
        | otherErr => dsimp only; rw [ih]; simp [hc]

/-- `search_wipo` decomposed: when the pre-loop callback does not raise, the
call returns the loop's result on `wo_list[:max_results]`. -/
lemma search_wipo_eq_loop (env : SearchEnv) (listing : List WoElem) (max_results : Nat)
    (cb : Option (Nat → Bool)) (stats0 : WIPOStats)
    (hpre : ∀ r, cb = Option.some r → r 0 = false) :
    search_wipo env listing max_results cb stats0 =
      Except.ok (search_loop env cb (totalOf listing max_results)
        (processedList listing max_results) 1 [] stats0
        (if cb.isSome then [(0, 5)] else [])) := by
  cases cb with
  | none =>
      simp only [search_wipo]
      rw [if_neg Bool.false_ne_true]
      by_cases hL : get_wo_list listing = []
      · rw [if_pos hL]
        simp [search_loop, processedList, totalOf, hL]
      · rw [if_neg hL]
        rfl
  | some r =>
      have h0 : r 0 = false := hpre r rfl
      simp only [search_wipo]
      rw [h0, if_neg Bool.false_ne_true]
      by_cases hL : get_wo_list listing = []
      · rw [if_pos hL]
        simp [search_loop, processedList, totalOf, hL]
      · rw [if_neg hL]
        rfl

/-- A successful tier-1 extraction carries the identifier and a validated
title. -/
lemma static_ok_title (env : SearchEnv) (wo : List Char) (p : Patent)
    (h : extract_static_httpx env wo = ExtractOutcome.ok p) :
    p.wo_number = wo ∧ p.biblio_data.title ≠ [] ∧
    looks_wrong p.biblio_data.title "title" = false := by
  unfold extract_static_httpx at h
  cases h2 : env.tier1 wo with
  | transportError => rw [h2] at h; exact absurd h (by simp)
  | extractionError => rw [h2] at h; exact absurd h (by simp)
  | page pe =>
      rw [h2] at h
      dsimp only at h
      by_cases hc : (decide ((parse_biblio_robust pe env.groq_api_key).title = []) ||
          looks_wrong (parse_biblio_robust pe env.groq_api_key).title "title") = true
      · rw [if_pos hc] at h
        exact absurd h (by simp)
      · rw [if_neg hc] at h
        injection h with h'
        subst h'
        refine ⟨rfl, ?_, ?_⟩
        · intro he
          dsimp only at he
          exact hc (by simp [he])
        · rcases Bool.or_eq_false_iff.mp (Bool.eq_false_iff.mpr hc) with ⟨_, hw⟩
          exact hw

/-- A successful tier-2 extraction carries the identifier and a validated
title. -/
lemma direct_ok_title (env : SearchEnv) (wo : List Char) (p : Patent)
    (h : extract_direct_playwright env wo = ExtractOutcome.ok p) :
    p.wo_number = wo ∧ p.biblio_data.title ≠ [] ∧
    looks_wrong p.biblio_data.title "title" = false := by
  unfold extract_direct_playwright at h
  cases h2 : env.tier2 wo with
  | transportError => rw [h2] at h; exact absurd h (by simp)
  | extractionError => rw [h2] at h; exact absurd h (by simp)
  | page pe =>
      rw [h2] at h
      dsimp only at h
      by_cases hc : (decide ((parse_biblio_robust pe env.groq_api_key).title = []) ||
          looks_wrong (parse_biblio_robust pe env.groq_api_key).title "title") = true
      · rw [if_pos hc] at h
        exact absurd h (by simp)
      · rw [if_neg hc] at h
        injection h with h'
        subst h'
        refine ⟨rfl, ?_, ?_⟩
        · intro he
          dsimp only at he
          exact hc (by simp [he])
        · rcases Bool.or_eq_false_iff.mp (Bool.eq_false_iff.mpr hc) with ⟨_, hw⟩
          exact hw

/-- Every patent produced by the tiered extraction carries its identifier and
a validated title. -/
lemma extractResult_title (env : SearchEnv) (wo : List Char) (p : Patent)
    (h : extractResult env wo = Option.some p) :
    p.wo_number = wo ∧ p.biblio_data.title ≠ [] ∧
    looks_wrong p.biblio_data.title "title" = false := by
  unfold extractResult extract_patent_tiered at h
  cases h1 : extract_static_httpx env wo with
  | ok q =>
      rw [h1] at h
      have hq : p = q := by simpa using h.symm
      subst hq
      exact static_ok_title env wo p h1
  | otherErr =>
      rw [h1] at h
      exact absurd h (by simp)
  | wipoErr =>
      rw [h1] at h
      by_cases hp : env.use_playwright = true
      · rw [hp] at h
        simp only [if_pos rfl] at h
        cases h2 : extract_direct_playwright env wo with
        | ok q =>
            rw [h2] at h
            have hq : p = q := by simpa using h.symm
            subst hq
            exact direct_ok_title env wo p h2
        | wipoErr => rw [h2] at h; exact absurd h (by simp)
        | otherErr => rw [h2] at h; exact absurd h (by simp)
      · rw [Bool.eq_false_iff.mpr hp] at h
        exact absurd h (by simp)

/-- A run whose pre-loop callback raises, raises. -/
lemma search_wipo_error (env : SearchEnv) (listing : List WoElem) (max_results : Nat)
    (s0 : WIPOStats) (r : Nat → Bool) (h0 : r 0 = true) :
    search_wipo env listing max_results (Option.some r) s0 = Except.error () := by
  simp only [search_wipo]
  rw [h0, if_pos rfl]

/-- The three components of a successful `search_wipo` run, in terms of the
processed identifier list. -/
lemma search_wipo_ok_parts (env : SearchEnv) (listing : List WoElem) (max_results : Nat)
    (cb : Option (Nat → Bool)) (s0 : WIPOStats)
    (ps : List Patent) (st : WIPOStats) (cs : List (Nat × Nat))
    (h : search_wipo env listing max_results cb s0 = Except.ok (ps, st, cs)) :
    ps = ((processedList listing max_results).enumFrom 1).filterMap
        (fun e => if raisedAt cb e.1 then Option.none else extractResult env e.2) ∧
    st.failures = s0.failures + ((processedList listing max_results).enumFrom 1).countP
        (fun e => raisedAt cb e.1 || (extractResult env e.2).isNone) ∧
    cs = (if cb.isSome then [(0, 5)] else []) ++
      ((processedList listing max_results).enumFrom 1).filterMap
        (fun e => if callAt cb e.1 then
            Option.some (e.1, progressPercent e.1 (totalOf listing max_results))
          else Option.none) := by
  have key : ∀ (hpre : ∀ r, cb = Option.some r → r 0 = false),
      search_loop env cb (totalOf listing max_results)
        (processedList listing max_results) 1 [] s0
        (if cb.isSome then [(0, 5)] else []) = (ps, st, cs) →
      ps = ((processedList listing max_results).enumFrom 1).filterMap
          (fun e => if raisedAt cb e.1 then Option.none else extractResult env e.2) ∧
      st.failures = s0.failures + ((processedList listing max_results).enumFrom 1).countP
          (fun e => raisedAt cb e.1 || (extractResult env e.2).isNone) ∧
      cs = (if cb.isSome then [(0, 5)] else []) ++
        ((processedList listing max_results).enumFrom 1).filterMap
          (fun e => if callAt cb e.1 then
              Option.some (e.1, progressPercent e.1 (totalOf listing max_results))
            else Option.none) := by
    intro hpre h'
    refine ⟨?_, ?_, ?_⟩
    · have h1 := congrArg Prod.fst h'
      dsimp only at h1
      rw [search_loop_patents] at h1
      simpa using h1.symm
    · have h1 := congrArg (fun x => x.2.1.failures) h'
      dsimp only at h1
      rw [search_loop_failures] at h1
      exact h1.symm
    · have h1 := congrArg (fun x => x.2.2) h'
      dsimp only at h1
      rw [search_loop_calls] at h1
      rw [← h1]
      cases cb with
      | none => simp
      | some r => simp
  cases cb with
  | none =>
      have hpre : ∀ r, (Option.none : Option (Nat → Bool)) = Option.some r → r 0 = false :=
        fun r hr => by cases hr
      rw [search_wipo_eq_loop env listing max_results Option.none s0 hpre] at h
      exact key hpre (by injection h)
  | some r =>
      by_cases h0 : r 0 = true
      · rw [search_wipo_error env listing max_results s0 r h0] at h
        exact absurd h (by simp)
      · have hpre : ∀ q, Option.some r = Option.some q → q 0 = false := by
          intro q hq
          cases hq
          exact Bool.eq_false_iff.mpr h0
        rw [search_wipo_eq_loop env listing max_results (Option.some r) s0 hpre] at h
        exact key hpre (by injection h)

/-! ## Claim C2 -/

/-- Claim C2: every Record in the output of `search_wipo` has a present title
that passes the Validator, and an identifier for which the tiered extraction
exhausts without a validated title contributes no Record. -/
theorem claim_C2 (env : SearchEnv) (listing : List WoElem) (max_results : Nat)
    (cb : Option (Nat → Bool)) (s0 : WIPOStats)
    (ps : List Patent) (st : WIPOStats) (cs : List (Nat × Nat))
    (h : search_wipo env listing max_results cb s0 = Except.ok (ps, st, cs)) :
    (∀ p ∈ ps, p.biblio_data.title ≠ [] ∧
      looks_wrong p.biblio_data.title "title" = false) ∧
    (∀ wo, extractFails env wo = true → ∀ p ∈ ps, p.wo_number ≠ wo) := by
  obtain ⟨hrep, -, -⟩ := search_wipo_ok_parts env listing max_results cb s0 ps st cs h
  have hps : ∀ p ∈ ps, ∃ wo, extractResult env wo = Option.some p := by
    intro p hp
    rw [hrep] at hp
    obtain ⟨e, he, hf⟩ := List.mem_filterMap.mp hp
    by_cases hra : raisedAt cb e.1 = true
    · rw [if_pos hra] at hf
      exact absurd hf (by simp)
    · rw [if_neg hra] at hf
      exact ⟨e.2, hf⟩
  constructor
  · intro p hp
    obtain ⟨wo, hwo⟩ := hps p hp
    obtain ⟨-, h1, h2⟩ := extractResult_title env wo p hwo
    exact ⟨h1, h2⟩
  · intro wo hf p hp heq
    obtain ⟨wo', hwo'⟩ := hps p hp
    obtain ⟨he, -, -⟩ := extractResult_title env wo' p hwo'
    rw [← heq, he] at hf
    rw [extractFails, hwo'] at hf
    exact absurd hf (by simp)

/-- Witness for claim C2 on a concrete run with one succeeding and one
failing identifier. -/
theorem claim_C2_witness :
    (∀ p ∈ (runParts (search_wipo envMixed listing2 10 Option.none ⟨0, 0, 0, 0⟩)).1,
      p.biblio_data.title ≠ [] ∧ looks_wrong p.biblio_data.title "title" = false) ∧
    (∀ wo, extractFails envMixed wo = true →
      ∀ p ∈ (runParts (search_wipo envMixed listing2 10 Option.none ⟨0, 0, 0, 0⟩)).1,
        p.wo_number ≠ wo) :=
  claim_C2 envMixed listing2 10 Option.none ⟨0, 0, 0, 0⟩
    (runParts (search_wipo envMixed listing2 10 Option.none ⟨0, 0, 0, 0⟩)).1
    (runParts (search_wipo envMixed listing2 10 Option.none ⟨0, 0, 0, 0⟩)).2.1
    (runParts (search_wipo envMixed listing2 10 Option.none ⟨0, 0, 0, 0⟩)).2.2
    (by rfl)

/-! ## Claim C4 -/

lemma filterMap_enumFrom_snd {α β : Type} (f : α → Option β) :
    ∀ (l : List α) (n : Nat),
      (List.enumFrom n l).filterMap (fun e => f e.2) = l.filterMap f := by
  intro l
  induction l with
  | nil => intro n; rfl
  | cons a t ih =>
      intro n
      simp only [List.enumFrom_cons, List.filterMap_cons]
      cases f a with
      | none => exact ih (n + 1)
      | some b => rw [ih (n + 1)]

lemma countP_enumFrom_snd {α : Type} (p : α → Bool) :
    ∀ (l : List α) (n : Nat),
      (List.enumFrom n l).countP (fun e => p e.2) = l.countP p := by
  intro l
  induction l with
  | nil => intro n; rfl
  | cons a t ih =>
      intro n
      simp only [List.enumFrom_cons, List.countP_cons, ih (n + 1)]

lemma map_wo_filterMap (env : SearchEnv) :
    ∀ ws : List (List Char),
      ((ws.filterMap (extractResult env)).map (fun p => p.wo_number)) =
        ws.filter (fun wo => !(extractFails env wo)) := by
  intro ws
  induction ws with
  | nil => rfl
  | cons wo rest ih =>
      simp only [List.filterMap_cons, List.filter_cons]
      cases hr : extractResult env wo with
      | none =>
          have hf : (!(extractFails env wo)) = false := by
            simp [extractFails, hr]
          rw [hf]
          simpa using ih
      | some p =>
          have hf : (!(extractFails env wo)) = true := by
            simp [extractFails, hr]
          rw [hf]
          simp only [List.map_cons]
          rw [(extractResult_title env wo p hr).1, ih]
          simp

/-- Claim C4: with no progress callback supplied, `search_wipo` never raises;
for every processed identifier whose tiers all fail, the identifier
contributes no Record, the failures counter counts it exactly once, and the
call returns the Records of the identifiers that succeeded (in processing
order) together with the statistics. -/
theorem claim_C4 (env : SearchEnv) (listing : List WoElem) (max_results : Nat)
    (s0 : WIPOStats) (ps : List Patent) (st : WIPOStats) (cs : List (Nat × Nat))
    (h : search_wipo env listing max_results Option.none s0 = Except.ok (ps, st, cs)) :
    (∀ s1 : WIPOStats, search_wipo env listing max_results Option.none s1 ≠
      Except.error ()) ∧
    st.failures = s0.failures +
      (processedList listing max_results).countP (fun wo => extractFails env wo) ∧
    ps.map (fun p => p.wo_number) =
      (processedList listing max_results).filter (fun wo => !(extractFails env wo)) ∧
    (∀ wo ∈ processedList listing max_results, extractFails env wo = true →
      ∀ p ∈ ps, p.wo_number ≠ wo) := by
  obtain ⟨hps, hst, -⟩ :=
    search_wipo_ok_parts env listing max_results Option.none s0 ps st cs h
  have hnone : (fun e : Nat × List Char =>
      if raisedAt Option.none e.1 then Option.none else extractResult env e.2) =
      (fun e : Nat × List Char => extractResult env e.2) := by
    funext e
    rfl
  have hps' : ps = (processedList listing max_results).filterMap (extractResult env) := by
    rw [hps, hnone, filterMap_enumFrom_snd]
  have hmap : ps.map (fun p => p.wo_number) =
      (processedList listing max_results).filter (fun wo => !(extractFails env wo)) := by
    rw [hps', map_wo_filterMap]
  refine ⟨?_, ?_, hmap, ?_⟩
  · intro s1
    rw [search_wipo_eq_loop env listing max_results Option.none s1
      (fun r hr => by cases hr)]
    simp
  · rw [hst]
    have hcnt : (fun e : Nat × List Char =>
        raisedAt Option.none e.1 || (extractResult env e.2).isNone) =
        (fun e : Nat × List Char => extractFails env e.2) := by
      funext e
      rfl
    rw [hcnt, countP_enumFrom_snd]
  · intro wo hmem hf p hp heq
    have : p.wo_number ∈ (processedList listing max_results).filter
        (fun w => !(extractFails env w)) := by
      rw [← hmap]
      exact List.mem_map_of_mem _ hp
    have hok := List.of_mem_filter this
    rw [heq, hf] at hok
    exact absurd hok (by simp)

/-- Witness for claim C4 on a concrete run with one succeeding and one
all-tiers-failing identifier. -/
theorem claim_C4_witness :
    (runParts (search_wipo envMixed listing2 10 Option.none ⟨0, 0, 0, 0⟩)).2.1.failures =
      (0 : Nat) + (processedList listing2 10).countP (fun wo => extractFails envMixed wo) ∧
    (runParts (search_wipo envMixed listing2 10 Option.none ⟨0, 0, 0, 0⟩)).1.map
        (fun p => p.wo_number) =
      (processedList listing2 10).filter (fun wo => !(extractFails envMixed wo)) :=
  ⟨(claim_C4 envMixed listing2 10 ⟨0, 0, 0, 0⟩
      (runParts (search_wipo envMixed listing2 10 Option.none ⟨0, 0, 0, 0⟩)).1
      (runParts (search_wipo envMixed listing2 10 Option.none ⟨0, 0, 0, 0⟩)).2.1
      (runParts (search_wipo envMixed listing2 10 Option.none ⟨0, 0, 0, 0⟩)).2.2
      (by rfl)).2.1,
   (claim_C4 envMixed listing2 10 ⟨0, 0, 0, 0⟩
      (runParts (search_wipo envMixed listing2 10 Option.none ⟨0, 0, 0, 0⟩)).1
      (runParts (search_wipo envMixed listing2 10 Option.none ⟨0, 0, 0, 0⟩)).2.1
      (runParts (search_wipo envMixed listing2 10 Option.none ⟨0, 0, 0, 0⟩)).2.2
      (by rfl)).2.2.1⟩

/-! ## Claim C9 -/

lemma mem_enumFrom_bounds {α : Type} :
    ∀ (l : List α) (n : Nat) (x : Nat × α),
      x ∈ List.enumFrom n l → n ≤ x.1 ∧ x.1 < n + l.length := by
  intro l
  induction l with
  | nil => intro n x hx; simp at hx
  | cons a t ih =>
      intro n x hx
      rcases List.mem_cons.mp hx with rfl | hx
      · simp
      · obtain ⟨h1, h2⟩ := ih (n + 1) x hx
        constructor
        · omega
        · simp only [List.length_cons]
          omega

lemma processed_length (listing : List WoElem) (max_results : Nat) :
    (processedList listing max_results).length = totalOf listing max_results := by
  simp [processedList, totalOf, Nat.min_comm]

lemma nearestInt_le (q : ℚ) : (nearestInt q : ℚ) ≤ q + 1 / 2 := by
  unfold nearestInt
  have hfl : (⌊q⌋ : ℚ) ≤ q := Int.floor_le q
  have hfr : (Int.fract q : ℚ) = q - (⌊q⌋ : ℚ) := rfl
  by_cases h1 : Int.fract q < 1 / 2
  · rw [if_pos h1]
    linarith
  · rw [if_neg h1]
    push_neg at h1
    by_cases h2 : 1 / 2 < Int.fract q
    · rw [if_pos h2]
      push_cast
      linarith
    · rw [if_neg h2]
      have heq : Int.fract q = 1 / 2 := le_antisymm (not_lt.mp h2) h1
      by_cases h3 : ⌊q⌋ % 2 = 0
      · rw [if_pos h3]
        linarith
      · rw [if_neg h3]
        push_cast
        linarith [hfr, heq]

lemma le_nearestInt (q : ℚ) : q - 1 / 2 ≤ (nearestInt q : ℚ) := by
  unfold nearestInt
  have hfl : (⌊q⌋ : ℚ) ≤ q := Int.floor_le q
  have hfr : (Int.fract q : ℚ) = q - (⌊q⌋ : ℚ) := rfl
  by_cases h1 : Int.fract q < 1 / 2
  · rw [if_pos h1]
    linarith [hfr, h1]
  · rw [if_neg h1]
    push_neg at h1
    have hlt : q < (⌊q⌋ : ℚ) + 1 := Int.lt_floor_add_one q
    by_cases h2 : 1 / 2 < Int.fract q
    · rw [if_pos h2]
      push_cast
      linarith
    · rw [if_neg h2]
      have heq : Int.fract q = 1 / 2 := le_antisymm (not_lt.mp h2) h1
      by_cases h3 : ⌊q⌋ % 2 = 0
      · rw [if_pos h3]
        linarith [hfr, heq]
      · rw [if_neg h3]
        push_cast
        linarith

lemma pow52_le_mantissa (q : ℚ) (h : 0 < q) :
    (2 : ℚ) ^ (52 : ℤ) ≤ q * (2 : ℚ) ^ ((52 : ℤ) - Int.log 2 q) := by
  have hlow : (2 : ℚ) ^ Int.log 2 q ≤ q := Int.zpow_log_le_self (by norm_num) h
  calc (2 : ℚ) ^ (52 : ℤ)
      = (2 : ℚ) ^ Int.log 2 q * (2 : ℚ) ^ ((52 : ℤ) - Int.log 2 q) := by
        rw [← zpow_add₀ (two_ne_zero)]
        ring_nf
    _ ≤ q * (2 : ℚ) ^ ((52 : ℤ) - Int.log 2 q) :=
        mul_le_mul_of_nonneg_right hlow (zpow_nonneg (by norm_num) _)

lemma roundq_nonneg (q : ℚ) : 0 ≤ roundq q := by
  unfold roundq
  by_cases h : q ≤ 0
  · rw [if_pos h]
  · rw [if_neg h]
    push_neg at h
    dsimp only
    have hm0 := pow52_le_mantissa q h
    have hni := le_nearestInt (q * (2 : ℚ) ^ ((52 : ℤ) - Int.log 2 q))
    have h52 : (1 : ℚ) ≤ (2 : ℚ) ^ (52 : ℤ) := by
      rw [show ((52 : ℤ)) = ((52 : ℕ) : ℤ) by norm_num, zpow_natCast]
      norm_num
    have hpos : (0 : ℚ) ≤
        (nearestInt (q * (2 : ℚ) ^ ((52 : ℤ) - Int.log 2 q)) : ℚ) := by
      linarith
    exact mul_nonneg hpos (zpow_nonneg (by norm_num) _)

lemma roundq_le (q : ℚ) (hq : 0 ≤ q) :
    roundq q ≤ q + q * (2 : ℚ) ^ (-(53 : ℤ)) := by
  unfold roundq
  by_cases h : q ≤ 0
  · rw [if_pos h]
    have hq0 : q = 0 := le_antisymm h hq
    rw [hq0]
    norm_num
  · rw [if_neg h]
    push_neg at h
    dsimp only
    have hlow : (2 : ℚ) ^ Int.log 2 q ≤ q := Int.zpow_log_le_self (by norm_num) h
    have hni := nearestInt_le (q * (2 : ℚ) ^ ((52 : ℤ) - Int.log 2 q))
    have hmono :
        (nearestInt (q * (2 : ℚ) ^ ((52 : ℤ) - Int.log 2 q)) : ℚ) *
          (2 : ℚ) ^ (Int.log 2 q - (52 : ℤ)) ≤
        (q * (2 : ℚ) ^ ((52 : ℤ) - Int.log 2 q) + 1 / 2) *
          (2 : ℚ) ^ (Int.log 2 q - (52 : ℤ)) :=
      mul_le_mul_of_nonneg_right hni (zpow_nonneg (by norm_num) _)
    refine hmono.trans ?_
    have hexp1 : (2 : ℚ) ^ ((52 : ℤ) - Int.log 2 q) *
        (2 : ℚ) ^ (Int.log 2 q - (52 : ℤ)) = 1 := by
      rw [← zpow_add₀ (two_ne_zero)]
      ring_nf
    have hexp2 : (1 / 2 : ℚ) * (2 : ℚ) ^ (Int.log 2 q - (52 : ℤ)) =
        (2 : ℚ) ^ (Int.log 2 q - (53 : ℤ)) := by
      rw [show (Int.log 2 q - (53 : ℤ)) = (-1) + (Int.log 2 q - (52 : ℤ)) by ring,
        zpow_add₀ (two_ne_zero)]
      norm_num
    have hexp3 : (2 : ℚ) ^ (Int.log 2 q - (53 : ℤ)) =
        (2 : ℚ) ^ Int.log 2 q * (2 : ℚ) ^ (-(53 : ℤ)) := by
      rw [← zpow_add₀ (two_ne_zero)]
      ring_nf
    have hupos : (0 : ℚ) ≤ (2 : ℚ) ^ (-(53 : ℤ)) := zpow_nonneg (by norm_num) _
    have hfin : (2 : ℚ) ^ Int.log 2 q * (2 : ℚ) ^ (-(53 : ℤ)) ≤
        q * (2 : ℚ) ^ (-(53 : ℤ)) := mul_le_mul_of_nonneg_right hlow hupos
    calc (q * (2 : ℚ) ^ ((52 : ℤ) - Int.log 2 q) + 1 / 2) *
          (2 : ℚ) ^ (Int.log 2 q - (52 : ℤ))
        = q * ((2 : ℚ) ^ ((52 : ℤ) - Int.log 2 q) *
            (2 : ℚ) ^ (Int.log 2 q - (52 : ℤ))) +
          (1 / 2 : ℚ) * (2 : ℚ) ^ (Int.log 2 q - (52 : ℤ)) := by ring
      _ = q + (2 : ℚ) ^ (Int.log 2 q - (53 : ℤ)) := by rw [hexp1, hexp2]; ring
      _ = q + (2 : ℚ) ^ Int.log 2 q * (2 : ℚ) ^ (-(53 : ℤ)) := by rw [hexp3]
      _ ≤ q + q * (2 : ℚ) ^ (-(53 : ℤ)) := by linarith

lemma progressPercent_le (idx total : Nat) (h1 : 1 ≤ idx) (h2 : idx ≤ total) :
    5 ≤ progressPercent idx total ∧ progressPercent idx total ≤ 95 := by
  refine ⟨Nat.le_add_right 5 _, ?_⟩
  have htot : 0 < total := Nat.lt_of_lt_of_le h1 h2
  have htotq : (0 : ℚ) < (total : ℚ) := by exact_mod_cast htot
  simp only [progressPercent]
  set q0 : ℚ := (idx : ℚ) / (total : ℚ) with hq0
  have hq0pos : 0 ≤ q0 := by positivity
  have hq0le : q0 ≤ 1 := by
    rw [hq0, div_le_one htotq]
    exact_mod_cast h2
  set u : ℚ := (2 : ℚ) ^ (-(53 : ℤ)) with hu
  have hupos : 0 < u := by
    rw [hu]
    positivity
  have hd0 : 0 ≤ roundq q0 := roundq_nonneg q0
  have hd : roundq q0 ≤ q0 + q0 * u := roundq_le q0 hq0pos
  have hdle : roundq q0 ≤ 1 + u := by nlinarith
  have hy90 : 0 ≤ roundq q0 * 90 := by positivity
  have hy : roundq (roundq q0 * 90) ≤ roundq q0 * 90 + roundq q0 * 90 * u :=
    roundq_le _ hy90
  have hyle : roundq (roundq q0 * 90) ≤ 90 * (1 + u) + 90 * (1 + u) * u := by
    nlinarith
  have huval : u = 1 / 9007199254740992 := by
    rw [hu, show (-(53 : ℤ)) = -((53 : ℕ) : ℤ) by norm_num, zpow_neg, zpow_natCast]
    norm_num
  have hufin : (90 : ℚ) * (1 + u) + 90 * (1 + u) * u < 91 := by
    rw [huval]
    norm_num
  have hylt : roundq (roundq q0 * 90) < 91 := lt_of_le_of_lt hyle hufin
  have hfl : ⌊roundq (roundq q0 * 90)⌋ < (91 : ℤ) := by
    rw [Int.floor_lt]
    exact_mod_cast hylt
  have htn : (⌊roundq (roundq q0 * 90)⌋).toNat ≤ 90 := by omega
  omega

/-- Claim C9 counterexample: in a concrete run over five identifiers that all
succeed at tier 1, a callback that raises at its fifth-identifier invocation
yields 4 records and 1 failure, while the same run with a non-raising
callback yields 5 records and 0 failures — a callback exception is therefore
not ignored: it changes both the returned sequence and the statistics. -/
theorem claim_C9_counterexample :
    runShape (search_wipo envT1 listing5 10
      (Option.some (fun i => decide (i = 5))) ⟨0, 0, 0, 0⟩) = (4, 1) ∧
    runShape (search_wipo envT1 listing5 10
      (Option.some (fun _ => false)) ⟨0, 0, 0, 0⟩) = (5, 0) ∧
    ((4, 1) : Nat × Nat) ≠ (5, 0) := by
  refine ⟨by decide, by decide, by decide⟩

/-- Claim C9 (amended): when a callback is supplied and its pre-loop
invocation does not raise, the callback is invoked once before the loop with
percent 5 and then exactly on every 5th identifier with percent
`5 + int((idx / total) * 90)` computed in binary64 float arithmetic
(modelled exactly by `progressPercent` via `roundq`; e.g. 67, not 68, at
idx = 35, total = 50), always within 5–95 (hence within 0–100); an
exception raised by a per-identifier invocation is caught by that
identifier's handler — the identifier is counted as a failure and omitted
from the returned sequence — so a raising callback does change the results;
an exception from the pre-loop invocation propagates out of the call. -/
theorem claim_C9_amended (env : SearchEnv) (listing : List WoElem) (max_results : Nat)
    (s0 : WIPOStats) (raises : Nat → Bool)
    (ps : List Patent) (st : WIPOStats) (cs : List (Nat × Nat))
    (h : search_wipo env listing max_results (Option.some raises) s0 =
      Except.ok (ps, st, cs)) :
    cs = (0, 5) :: ((processedList listing max_results).enumFrom 1).filterMap
        (fun e => if callAt (Option.some raises) e.1 then
            Option.some (e.1, progressPercent e.1 (totalOf listing max_results))
          else Option.none) ∧
    (∀ c ∈ cs, 5 ≤ c.2 ∧ c.2 ≤ 95) ∧
    st.failures = s0.failures + ((processedList listing max_results).enumFrom 1).countP
        (fun e => raisedAt (Option.some raises) e.1 || (extractResult env e.2).isNone) ∧
    ps = ((processedList listing max_results).enumFrom 1).filterMap
        (fun e => if raisedAt (Option.some raises) e.1 then Option.none
          else extractResult env e.2) ∧
    (raises 0 = true →
      search_wipo env listing max_results (Option.some raises) s0 = Except.error ()) := by
  obtain ⟨hps, hst, hcs⟩ :=
    search_wipo_ok_parts env listing max_results (Option.some raises) s0 ps st cs h
  have hcs' : cs = (0, 5) :: ((processedList listing max_results).enumFrom 1).filterMap
      (fun e => if callAt (Option.some raises) e.1 then
          Option.some (e.1, progressPercent e.1 (totalOf listing max_results))
        else Option.none) := by
    simpa using hcs
  refine ⟨hcs', ?_, hst, hps, ?_⟩
  · intro c hc
    rw [hcs'] at hc
    rcases List.mem_cons.mp hc with rfl | hc
    · exact ⟨Nat.le_refl 5, by norm_num⟩
    · obtain ⟨e, he, hf⟩ := List.mem_filterMap.mp hc
      by_cases hcall : callAt (Option.some raises) e.1 = true
      · rw [if_pos hcall] at hf
        obtain ⟨h1, h2⟩ := mem_enumFrom_bounds _ 1 e he
        rw [processed_length] at h2
        have hb := progressPercent_le e.1 (totalOf listing max_results) h1 (by omega)
        cases hf
        exact hb
      · rw [if_neg hcall] at hf
        exact absurd hf (by simp)
  · intro h0
    exact search_wipo_error env listing max_results s0 raises h0

/-- Witness for claim C9's amended theorem on a concrete five-identifier
run with a callback raising at index 5. -/
theorem claim_C9_witness :
    (runParts (search_wipo envT1 listing5 10
        (Option.some (fun i => decide (i = 5))) ⟨0, 0, 0, 0⟩)).2.2 =
      (0, 5) :: ((processedList listing5 10).enumFrom 1).filterMap
        (fun e => if callAt (Option.some (fun i => decide (i = 5))) e.1 then
            Option.some (e.1, progressPercent e.1 (totalOf listing5 10))
          else Option.none) ∧
    (runParts (search_wipo envT1 listing5 10
        (Option.some (fun i => decide (i = 5))) ⟨0, 0, 0, 0⟩)).2.1.failures =
      (0 : Nat) + ((processedList listing5 10).enumFrom 1).countP
        (fun e => raisedAt (Option.some (fun i => decide (i = 5))) e.1 ||
          (extractResult envT1 e.2).isNone) :=
  ⟨(claim_C9_amended envT1 listing5 10 ⟨0, 0, 0, 0⟩ (fun i => decide (i = 5))
      (runParts (search_wipo envT1 listing5 10
        (Option.some (fun i => decide (i = 5))) ⟨0, 0, 0, 0⟩)).1
      (runParts (search_wipo envT1 listing5 10
        (Option.some (fun i => decide (i = 5))) ⟨0, 0, 0, 0⟩)).2.1
      (runParts (search_wipo envT1 listing5 10
        (Option.some (fun i => decide (i = 5))) ⟨0, 0, 0, 0⟩)).2.2
      (by rfl)).1,
   (claim_C9_amended envT1 listing5 10 ⟨0, 0, 0, 0⟩ (fun i => decide (i = 5))
      (runParts (search_wipo envT1 listing5 10
        (Option.some (fun i => decide (i = 5))) ⟨0, 0, 0, 0⟩)).1
      (runParts (search_wipo envT1 listing5 10
        (Option.some (fun i => decide (i = 5))) ⟨0, 0, 0, 0⟩)).2.1
      (runParts (search_wipo envT1 listing5 10
        (Option.some (fun i => decide (i = 5))) ⟨0, 0, 0, 0⟩)).2.2
      (by rfl)).2.2.1⟩

/-! ## Claim C6 -/

lemma isPrefixOf_wo (t : List Char) :
    List.isPrefixOf ['W', 'O'] ('W' :: 'O' :: t) = true := by
  simp [List.isPrefixOf]

lemma docIdAt_prefix : ∀ (l m : List Char),
    docIdAt l = Option.some m → List.isPrefixOf ['W', 'O'] m = true := by
  intro l m h
  unfold docIdAt at h
  split at h
  · rename_i rest
    dsimp only at h
    by_cases hd : List.takeWhile Char.isDigit rest = []
    · rw [if_pos hd] at h
      exact absurd h (by simp)
    · rw [if_neg hd] at h
      injection h with h'
      rw [← h']
      exact isPrefixOf_wo _
  · exact absurd h (by simp)

lemma docIdSearch_prefix : ∀ (l m : List Char),
    docIdSearch l = Option.some m → List.isPrefixOf ['W', 'O'] m = true := by
  intro l
  induction l with
  | nil => intro m h; simp [docIdSearch] at h
  | cons c t ih =>
      intro m h
      rw [docIdSearch] at h
      cases hd : docIdAt (c :: t) with
      | some m2 =>
          rw [hd] at h
          injection h with h'
          rw [← h']
          exact docIdAt_prefix (c :: t) m2 hd
      | none =>
          rw [hd] at h
          exact ih m h

lemma get_wo_list_eq (elems : List WoElem) :
    get_wo_list elems = firstDedup (rawWoTokens elems) := rfl

lemma filter_filter_notMem {α : Type} [DecidableEq α] (a : α) (seen l : List α) :
    (l.filter (fun x => decide (x ∉ seen))).filter (fun x => decide (x ≠ a)) =
      l.filter (fun x => decide (x ∉ a :: seen)) := by
  rw [List.filter_filter]
  apply List.filter_congr
  intro x _
  by_cases hxa : x = a
  · simp [hxa]
  · by_cases hxs : x ∈ seen
    · simp [hxa, hxs]
    · simp [hxa, hxs]

/-- `dict.fromkeys` keeps the FIRST occurrence of each key: the accumulator
implementation equals the spec's first-occurrence deduplication. -/
lemma firstDedupAux_eq_spec {α : Type} [DecidableEq α] :
    ∀ (l seen : List α),
      firstDedupAux l seen = specFirstOccur (l.filter (fun x => decide (x ∉ seen))) := by
  intro l
  induction l with
  | nil => intro seen; simp [firstDedupAux, specFirstOccur]
  | cons a t ih =>
      intro seen
      by_cases h : a ∈ seen
      · have hfa : (decide (a ∉ seen)) = false := by simp [h]
        rw [List.filter_cons, if_neg (by rw [hfa]; exact Bool.false_ne_true)]
        simp only [firstDedupAux, if_pos h]
        exact ih seen
      · have hfa : (decide (a ∉ seen)) = true := by simp [h]
        rw [List.filter_cons, if_pos hfa]
        simp only [firstDedupAux, if_neg h, specFirstOccur]
        rw [filter_filter_notMem]
        exact congrArg (List.cons a) (ih (a :: seen))

lemma firstDedup_eq_specFirstOccur {α : Type} [DecidableEq α] (l : List α) :
    firstDedup l = specFirstOccur l := by
  rw [firstDedup, firstDedupAux_eq_spec]
  congr 1
  apply List.filter_eq_self.mpr
  intro a _
  simp

/-- Claim C6: both candidate listers return a deduplicated list preserving
first-occurrence order — each equals `specFirstOccur` of its raw token list,
the spec's "keep the first occurrence, erase later duplicates" function (so
the order is pinned down, not merely some Nodup sublist); every returned
identifier is normalized (no separator characters, canonical `WO` prefix);
the v3 lister truncates to the requested maximum, and the v2 coordinator
consumes at most `max_results` identifiers of its lister's output. -/
theorem claim_C6 (elems : List WoElem) (hrefs : List (List Char)) (limit : Nat)
    (listing : List WoElem) (max_results : Nat) :
    (get_wo_list elems).Nodup ∧
    (get_wo_list elems).Sublist (rawWoTokens elems) ∧
    (∀ w, w ∈ get_wo_list elems ↔ w ∈ rawWoTokens elems) ∧
    (∀ w ∈ get_wo_list elems, List.isPrefixOf ['W', 'O'] w = true ∧
      ∀ c ∈ w, c ≠ '/' ∧ isPySpace c = false ∧ c ≠ '-') ∧
    (processedList listing max_results).length ≤ max_results ∧
    (processedList listing max_results).Sublist (get_wo_list listing) ∧
    (v3_search_wipo hrefs limit).Nodup ∧
    (v3_search_wipo hrefs limit).length ≤ limit ∧
    (v3_search_wipo hrefs limit).Sublist (hrefs.filterMap docIdSearch) ∧
    (∀ w ∈ v3_search_wipo hrefs limit, List.isPrefixOf ['W', 'O'] w = true) ∧
    get_wo_list elems = specFirstOccur (rawWoTokens elems) ∧
    v3_search_wipo hrefs limit =
      (specFirstOccur (hrefs.filterMap docIdSearch)).take limit := by
  refine ⟨?_, ?_, ?_, ?_, ?_, ?_, ?_, ?_, ?_, ?_, ?_, ?_⟩
  · rw [get_wo_list_eq]
    exact firstDedup_nodup _
  · rw [get_wo_list_eq]
    exact firstDedup_sublist _
  · intro w
    rw [get_wo_list_eq]
    exact mem_firstDedup _ w
  · intro w hw
    have hraw : w ∈ rawWoTokens elems := by
      rw [get_wo_list_eq] at hw
      exact (mem_firstDedup _ w).mp hw
    obtain ⟨e, he, hf⟩ := List.mem_filterMap.mp hraw
    by_cases hc : (decide (normalizeWo (elemToken e) ≠ []) &&
        List.isPrefixOf ['W', 'O'] (normalizeWo (elemToken e))) = true
    · rw [if_pos hc] at hf
      injection hf with hf'
      obtain ⟨-, hpre⟩ := (Bool.and_eq_true _ _).mp hc
      refine ⟨hf' ▸ hpre, ?_⟩
      intro c hcw
      rw [← hf'] at hcw
      have hpc := List.of_mem_filter hcw
      have : ¬(c = '/' || isPySpace c || c = '-') = true := by
        simpa using hpc
      constructor
      · intro hcc; exact this (by simp [hcc])
      constructor
      · by_cases hsp : isPySpace c = true
        · exact absurd (by simp [hsp]) this
        · exact Bool.eq_false_iff.mpr hsp
      · intro hcc; exact this (by simp [hcc])
    · rw [if_neg hc] at hf
      exact absurd hf (by simp)
  · exact List.length_take_le max_results _
  · exact List.take_sublist max_results _
  · exact ((List.take_sublist limit _).nodup (firstDedup_nodup _))
  · exact List.length_take_le limit _
  · exact (List.take_sublist limit _).trans (firstDedup_sublist _)
  · intro w hw
    have hmem : w ∈ firstDedup (hrefs.filterMap docIdSearch) :=
      (List.take_sublist limit _).mem hw
    have hraw : w ∈ hrefs.filterMap docIdSearch := (mem_firstDedup _ w).mp hmem
    obtain ⟨href, -, hf⟩ := List.mem_filterMap.mp hraw
    exact docIdSearch_prefix href w hf
  · rw [get_wo_list_eq, firstDedup_eq_specFirstOccur]
  · simp only [v3_search_wipo, firstDedup_eq_specFirstOccur]

/-- Witness for claim C6 on concrete listings. -/
theorem claim_C6_witness :
    ("WO1000001".toList ∈ get_wo_list listing2 ↔
      "WO1000001".toList ∈ rawWoTokens listing2) ∧
    List.isPrefixOf ['W', 'O'] "WO2022049075".toList = true :=
  ⟨(claim_C6 listing2 hrefs0 2 listing2 2).2.2.1 "WO1000001".toList,
   ((claim_C6 listing2 hrefs0 2 listing2 2).2.2.2.2.2.2.2.2.2.1
     "WO2022049075".toList (by decide))⟩

/-! ## Claim C10 -/

lemma takeWhile_digits_append (pre rest : List Char)
    (hd : ∀ c ∈ pre, c.isDigit = true) :
    (pre ++ '.' :: rest).takeWhile Char.isDigit = pre := by
  induction pre with
  | nil => simp
  | cons c t ih =>
      have hc : c.isDigit = true := hd c (List.mem_cons_self c t)
      have ih' := ih (fun x hx => hd x (List.mem_cons_of_mem c hx))
      simp [List.takeWhile_cons, hc, ih']

lemma dropWhile_digits_append (pre rest : List Char)
    (hd : ∀ c ∈ pre, c.isDigit = true) :
    (pre ++ '.' :: rest).dropWhile Char.isDigit = '.' :: rest := by
  induction pre with
  | nil => simp
  | cons c t ih =>
      have hc : c.isDigit = true := hd c (List.mem_cons_self c t)
      simp only [List.cons_append, List.dropWhile_cons, hc, if_pos rfl]
      exact ih (fun x hx => hd x (List.mem_cons_of_mem c hx))

lemma pyStrip_dropWhile (l : List Char) :
    pyStrip (l.dropWhile isPySpace) = pyStrip l := by
  simp only [pyStrip, dropWhile_idem]

lemma matchClaimHead_append (pre rest : List Char) (hne : pre ≠ [])
    (hd : ∀ c ∈ pre, c.isDigit = true) :
    matchClaimHead (pre ++ '.' :: rest) =
      Option.some (digitsVal pre, rest.dropWhile isPySpace) := by
  unfold matchClaimHead
  rw [takeWhile_digits_append pre rest hd, dropWhile_digits_append pre rest hd]
  dsimp only
  rw [if_pos rfl, if_neg hne]

/-- Claim C10: each claim element whose text begins with digits followed by a
period contributes a record with that number, the remaining (stripped) text,
and a dependent/independent classification determined by the presence of a
case-insensitive "claim <number>" reference; elements without such a leading
number contribute nothing (the output has exactly one record per matching
element). -/
theorem claim_C10 (texts : List (List Char)) :
    (∀ (pre rest : List Char), pre ≠ [] → (∀ c ∈ pre, c.isDigit = true) →
      (pre ++ '.' :: rest) ∈ texts →
      ({ claim_number := digitsVal pre,
         claim_type := if hasClaimRef (pyStrip rest) then "dependent" else "independent",
         claim_text := pyStrip rest } : ClaimRec) ∈ extract_claims texts) ∧
    (extract_claims texts).length = texts.countP (fun t => (matchClaimHead t).isSome) := by
  constructor
  · intro pre rest hne hd hmem
    induction texts with
    | nil => simp at hmem
    | cons t ts ih =>
        rcases List.mem_cons.mp hmem with heq | hmem'
        · rw [extract_claims, ← heq, matchClaimHead_append pre rest hne hd]
          dsimp only
          rw [pyStrip_dropWhile]
          exact List.mem_cons_self _ _
        · rw [extract_claims]
          cases matchClaimHead t with
          | some nr => exact List.mem_cons_of_mem _ (ih hmem')
          | none => exact ih hmem'
  · induction texts with
    | nil => rfl
    | cons t ts ih =>
        rw [extract_claims, List.countP_cons]
        cases matchClaimHead t with
        | some nr => simp [ih]
        | none => simp [ih]

/-- Witness for claim C10 at a concrete claims listing. -/
theorem claim_C10_witness :
    ({ claim_number := digitsVal "2".toList,
       claim_type := if hasClaimRef (pyStrip " The compound of claim 1.".toList)
         then "dependent" else "independent",
       claim_text := pyStrip " The compound of claim 1.".toList } : ClaimRec) ∈
      extract_claims ["Background".toList, "2. The compound of claim 1.".toList] :=
  (claim_C10 ["Background".toList, "2. The compound of claim 1.".toList]).1
    "2".toList " The compound of claim 1.".toList (by decide) (by decide) (by decide)
